import Mathlib

/-!
Verification development for the sastopo2svg SAS-topology renderer
(src/src/lib.rs).  The Rust source is shallowly embedded: the HashMap of
vertices becomes an association list with first-match lookup, mutation of
the column hash and of per-vertex geometry becomes explicit state passing,
fallible code returns an explicit result type, and the unbounded DFS
recursion of visit_vertex is driven by an explicit fuel counter (running
out of fuel is a distinguished result, separate from the LookupFailure
error the source can return).
-/

namespace SasTopo

/-- Constants for topo node names in SAS scheme topology (lib.rs lines 40-43). -/
def INITIATOR : String := "initiator"

/-- Topo node name constant for ports (lib.rs line 41). -/
def PORT : String := "port"

/-- Topo node name constant for expanders (lib.rs line 42). -/
def EXPANDER : String := "expander"

/-- Topo node name constant for targets (lib.rs line 43). -/
def TARGET : String := "target"

/-- Geometry record of a vertex: x, y, width, height (lib.rs lines 56-62).
The u32 fields are modelled as Nat; none of the arithmetic performed on
them in the source can underflow, and the claims treat them as plain
numbers. -/
structure SasGeometry where
  x : Nat
  y : Nat
  width : Nat
  height : Nat
deriving DecidableEq

/-- SasGeometry::new (lib.rs lines 64-73). -/
def SasGeometry.new (x y width height : Nat) : SasGeometry :=
  ⟨x, y, width, height⟩

/-- Display property of a vertex: a (name, value) pair (lib.rs lines 75-79). -/
structure SasDigraphProperty where
  name : String
  value : String
deriving DecidableEq

/-- SasDigraphProperty::new (lib.rs lines 81-85). -/
def SasDigraphProperty.new (name value : String) : SasDigraphProperty :=
  ⟨name, value⟩

/-- A vertex of the SAS digraph (lib.rs lines 87-95).  The u64 field
named instance in the source is called inst here because instance is a
Lean keyword. -/
structure SasDigraphVertex where
  fmri : String
  name : String
  inst : Nat
  properties : List SasDigraphProperty
  geometry : SasGeometry
  outgoing_edges : Option (List String)
deriving DecidableEq

/-- SasDigraphVertex::new (lib.rs lines 97-115): properties start empty
and geometry starts as the all-zero record. -/
def SasDigraphVertex.new (fmri name : String) (inst : Nat)
    (outgoing_edges : Option (List String)) : SasDigraphVertex :=
  { fmri := fmri, name := name, inst := inst, properties := [],
    geometry := SasGeometry.new 0 0 0 0, outgoing_edges := outgoing_edges }

/-- The SAS digraph (lib.rs lines 117-131).  The HashMap of vertices,
hashed by FMRI, is modelled as an association list queried by
first-match lookup; insertion overwrites the binding of an existing key,
as HashMap::insert does. -/
structure SasDigraph where
  product_id : String
  nodename : String
  os_version : String
  timestamp : String
  vertices : List (String × SasDigraphVertex)
  initiators : List String
deriving DecidableEq

/-- SasDigraph::new (lib.rs lines 133-152). -/
def SasDigraph.new (product_id nodename os_version timestamp : String) : SasDigraph :=
  { product_id := product_id, nodename := nodename, os_version := os_version,
    timestamp := timestamp, vertices := [], initiators := [] }

/-- Lookup in an association list: first binding whose key matches. -/
def vlookup : List (String × SasDigraphVertex) → String → Option SasDigraphVertex
  | [], _ => none
  | (k', v) :: rest, k => if k' = k then some v else vlookup rest k

/-- HashMap::get on the vertex map. -/
def getVtx (g : SasDigraph) (k : String) : Option SasDigraphVertex :=
  vlookup g.vertices k

/-- HashMap::insert on an association list: overwrite the binding if the
key is present, otherwise add a new binding. -/
def insertVtx : List (String × SasDigraphVertex) → String → SasDigraphVertex →
    List (String × SasDigraphVertex)
  | [], k, v => [(k, v)]
  | (k', w) :: rest, k, v =>
    if k' = k then (k', v) :: rest else (k', w) :: insertVtx rest k v

/-- Overwrite the value bound to key k (models HashMap::get_mut followed
by mutation); a missing key leaves the list unchanged (the source would
have panicked on the preceding unwrap in that case). -/
def setVtx : List (String × SasDigraphVertex) → String → SasDigraphVertex →
    List (String × SasDigraphVertex)
  | [], _, _ => []
  | (k', w) :: rest, k, v =>
    if k' = k then (k', v) :: rest else (k', w) :: setVtx rest k v

/-- The key list of the vertex map. -/
def keys (g : SasDigraph) : List String := g.vertices.map (fun pr => pr.1)

/-- The column hash of build_svg: HashMap from depth to the list of FMRIs
visited at that depth, modelled as an association list. -/
abbrev ColumnHash : Type := List (Nat × List String)

/-- HashMap::get on the column hash. -/
def chLookup : ColumnHash → Nat → Option (List String)
  | [], _ => none
  | (k', l) :: rest, k => if k' = k then some l else chLookup rest k

/-- The list stored at depth k, defaulting to the empty list. -/
def chGet (ch : ColumnHash) (k : Nat) : List String :=
  (chLookup ch k).getD []

/-- column_hash.entry(k).or_insert_with(Vec::new).push(v)
(lib.rs lines 223-226). -/
def chPush : ColumnHash → Nat → String → ColumnHash
  | [], k, v => [(k, [v])]
  | (k', l) :: rest, k, v =>
    if k' = k then (k', l ++ [v]) :: rest else (k', l) :: chPush rest k v

/-- Result of the layering walk: either a value, the LookupFailure error
of the source ("failed to lookup vertex"), or fuel exhaustion (the model
artifact standing for unbounded recursion of the source). -/
inductive VR (α : Type) where
  | ok : α → VR α
  | lookupFailure : VR α
  | outOfFuel : VR α
deriving DecidableEq

/-- The edge loop of visit_vertex (lib.rs lines 228-241): look up every
outgoing edge target, recurse (the recursive call is passed in as visit),
and keep the running maximum of the returned depths.  An unknown edge
target is the LookupFailure error. -/
def visitEdges (visit : SasDigraphVertex → ColumnHash → Nat → VR (Nat × ColumnHash))
    (g : SasDigraph) :
    List String → ColumnHash → Nat → Nat → VR (Nat × ColumnHash)
  | [], ch, _, md => .ok (md, ch)
  | e :: rest, ch, depth, md =>
    match getVtx g e with
    | none => .lookupFailure
    | some nv =>
      match visit nv ch (depth + 1) with
      | .ok (rc, ch2) => visitEdges visit g rest ch2 depth (Nat.max md rc)
      | .lookupFailure => .lookupFailure
      | .outOfFuel => .outOfFuel

/-- visit_vertex (lib.rs lines 215-243): append the vertex FMRI to the
layer list of depth + 1, then walk every outgoing edge at depth + 1,
returning the maximum depth reached.  The source recurses without any
cycle guard; the fuel counter makes the model total, with fuel
exhaustion reported as outOfFuel. -/
def visit_vertex (g : SasDigraph) :
    Nat → SasDigraphVertex → ColumnHash → Nat → VR (Nat × ColumnHash)
  | 0, _, _, _ => .outOfFuel
  | fuel + 1, vtx, ch, depth =>
    let ch1 := chPush ch (depth + 1) vtx.fmri
    match vtx.outgoing_edges with
    | none => .ok (depth + 1, ch1)
    | some es => visitEdges (visit_vertex g fuel) g es ch1 depth (depth + 1)

/-- The initiator loop of build_svg (lib.rs lines 286-299): look up every
initiator FMRI in root-list order, walk it at depth 0, and keep the
running maximum depth.  A missing initiator is the LookupFailure error. -/
def layer_roots (g : SasDigraph) (fuel : Nat) :
    List String → ColumnHash → Nat → VR (Nat × ColumnHash)
  | [], ch, md => .ok (md, ch)
  | f :: rest, ch, md =>
    match getVtx g f with
    | none => .lookupFailure
    | some vtx =>
      match visit_vertex g fuel vtx ch 0 with
      | .ok (rc, ch2) => layer_roots g fuel rest ch2 (Nat.max md rc)
      | .lookupFailure => .lookupFailure
      | .outOfFuel => .outOfFuel

/-- The whole layering phase of build_svg: walk all initiators starting
from an empty column hash and max_depth 0. -/
def layering (g : SasDigraph) (fuel : Nat) : VR (Nat × ColumnHash) :=
  layer_roots g fuel g.initiators [] 0

/-- The max_height computation of build_svg (lib.rs lines 301-310): the
largest layer-list length over depths 1..=max_depth, a missing layer
counting as 0. -/
def max_height_calc (ch : ColumnHash) (md : Nat) : Nat :=
  (List.range md).foldl
    (fun acc i =>
      Nat.max acc (match chLookup ch (i + 1) with
                   | some entry => entry.length
                   | none => 0))
    0

/-- Error outcomes of the run, one constructor per distinct error site of
the source.  parseIntError, malformedPropertyNvlist, malformedPropgroup,
unexpectedNvpairName and unexpectedVertexName are MalformedInput errors in
the spec taxonomy; failedLookup is LookupFailure; panicked models a Rust
panic (unconditional slice or unwrap failing), which aborts the process
without a diagnosable error value; outOfFuel is the model artifact for
the unbounded DFS recursion. -/
inductive RunError where
  | failedLookup
  | unexpectedVertexName
  | malformedPropertyNvlist
  | malformedPropgroup
  | unexpectedNvpairName
  | parseIntError
  | panicked
  | outOfFuel
deriving DecidableEq

/-- A node primitive of the emitted drawing: the Image plus its Group
attributes (lib.rs lines 362-391).  Every vertex occurrence yields one,
carrying the FMRI, the icon URI selected by kind, the (x, y) position and
the fixed 120 by 120 size. -/
structure NodePrim where
  fmri : String
  href : String
  x : Nat
  y : Nat
  width : Nat
  height : Nat
deriving DecidableEq

/-- A connector (Line) primitive: its two endpoints
(lib.rs lines 412-452). -/
structure LinePrim where
  x1 : Nat
  y1 : Nat
  x2 : Nat
  y2 : Nat
deriving DecidableEq

/-- Icon selection by vertex kind (lib.rs lines 362-368); an unrecognized
kind is the "unexpected vertex name" error. -/
def imguriFor (nm : String) : Option String :=
  if nm = INITIATOR then some "assets/icons/initiator.png"
  else if nm = PORT then some "assets/icons/port.png"
  else if nm = EXPANDER then some "assets/icons/expander.png"
  else if nm = TARGET then some "assets/icons/target.png"
  else none

/-- Inner vertex-emission loop of build_svg (lib.rs lines 342-392) over
one layer list: for the occurrence at position index (0-based), height is
index + 1, x = (depth - 1) * 250 + 50, y_factor is 1 when height is 1 and
otherwise max_height / layer_length (integer division), and
y = (height - 1) * 150 * y_factor + 10.  The node primitive is appended
and the vertex geometry in the map is overwritten with (x, y, 120, 120).
layerLen is the length of the full layer list (vertices.len() in the
source). -/
def nodeLoopInner (mh layerLen depth : Nat) :
    List String → Nat → List NodePrim → List (String × SasDigraphVertex) →
    Except RunError (List NodePrim × List (String × SasDigraphVertex))
  | [], _, acc, vs => .ok (acc, vs)
  | f :: rest, index, acc, vs =>
    match vlookup vs f with
    | none => .error .panicked
    | some vtx =>
      let height := index + 1
      let x := (depth - 1) * 250 + 50
      let y_factor := if height = 1 then 1 else mh / layerLen
      let y := (height - 1) * 150 * y_factor + 10
      match imguriFor vtx.name with
      | none => .error .unexpectedVertexName
      | some uri =>
        let prim : NodePrim := ⟨f, uri, x, y, 120, 120⟩
        let vtx2 := { vtx with geometry := SasGeometry.new x y 120 120 }
        nodeLoopInner mh layerLen depth rest (index + 1) (acc ++ [prim])
          (setVtx vs f vtx2)

/-- Outer vertex-emission loop of build_svg (lib.rs lines 340-393) over
depths 1..=max_depth; column_hash.get(&depth).unwrap() panics when the
depth has no layer list. -/
def nodeLoopOuter (mh : Nat) (ch : ColumnHash) :
    List Nat → List NodePrim → List (String × SasDigraphVertex) →
    Except RunError (List NodePrim × List (String × SasDigraphVertex))
  | [], acc, vs => .ok (acc, vs)
  | d :: ds, acc, vs =>
    match chLookup ch d with
    | none => .error .panicked
    | some layer =>
      match nodeLoopInner mh layer.length d layer 0 acc vs with
      | .ok (acc2, vs2) => nodeLoopOuter mh ch ds acc2 vs2
      | .error e => .error e

/-- The depth list 1..=md iterated by the emission loops. -/
def oneTo (md : Nat) : List Nat := (List.range md).map (fun i => i + 1)

/-- Full vertex-emission phase: iterate depths 1..=max_depth starting
from no primitives, threading the vertex map whose geometry fields are
being written. -/
def emitNodes (mh : Nat) (ch : ColumnHash) (md : Nat)
    (vs : List (String × SasDigraphVertex)) :
    Except RunError (List NodePrim × List (String × SasDigraphVertex)) :=
  nodeLoopOuter mh ch (oneTo md) [] vs

/-- Per-edge connector loop (lib.rs lines 422-453): for each downstream
edge, one vertical segment from (start_x2, start_y2) to the target's
vertical center and one horizontal segment into the target's left edge,
reading the target's geometry; vertices.get(edge_fmri).unwrap() panics on
a missing target. -/
def edgeLines (vs : List (String × SasDigraphVertex)) (sx2 sy2 : Nat) :
    List String → Except RunError (List LinePrim)
  | [] => .ok []
  | e :: rest =>
    match vlookup vs e with
    | none => .error .panicked
    | some evtx =>
      let eg := evtx.geometry
      let mid : LinePrim := ⟨sx2, sy2, sx2, eg.y + 120 / 2⟩
      let endl : LinePrim := ⟨sx2, eg.y + 120 / 2, eg.x, eg.y + 120 / 2⟩
      match edgeLines vs sx2 sy2 rest with
      | .ok ls => .ok (mid :: endl :: ls)
      | .error er => .error er

/-- Connector emission for one layer-list occurrence (lib.rs lines
400-453): a vertex with no outgoing-edge list contributes nothing; a
vertex with an edge list contributes one exit connector leaving its right
edge at its vertical center, followed by the per-edge segments. -/
def connectorsFor (vs : List (String × SasDigraphVertex)) (f : String) :
    Except RunError (List LinePrim) :=
  match vlookup vs f with
  | none => .error .panicked
  | some vtx =>
    match vtx.outgoing_edges with
    | none => .ok []
    | some es =>
      let start_x1 := vtx.geometry.x + 120
      let start_y1 := vtx.geometry.y + 120 / 2
      let start_x2 := start_x1 + 50
      let start_y2 := start_y1
      let exitLine : LinePrim := ⟨start_x1, start_y1, start_x2, start_y2⟩
      match edgeLines vs start_x2 start_y2 es with
      | .ok ls => .ok (exitLine :: ls)
      | .error er => .error er

/-- Connector emission over one layer list, in list order. -/
def connLoopLayer (vs : List (String × SasDigraphVertex)) :
    List String → Except RunError (List LinePrim)
  | [] => .ok []
  | f :: rest =>
    match connectorsFor vs f with
    | .error e => .error e
    | .ok ls =>
      match connLoopLayer vs rest with
      | .error e => .error e
      | .ok ls2 => .ok (ls ++ ls2)

/-- Connector emission over depths 1..=max_depth (lib.rs lines
398-455). -/
def connLoopOuter (vs : List (String × SasDigraphVertex)) (ch : ColumnHash) :
    List Nat → Except RunError (List LinePrim)
  | [] => .ok []
  | d :: ds =>
    match chLookup ch d with
    | none => .error .panicked
    | some layer =>
      match connLoopLayer vs layer with
      | .error e => .error e
      | .ok ls =>
        match connLoopOuter vs ch ds with
        | .error e => .error e
        | .ok ls2 => .ok (ls ++ ls2)

/-- Full connector-emission phase. -/
def connAll (vs : List (String × SasDigraphVertex)) (ch : ColumnHash) (md : Nat) :
    Except RunError (List LinePrim) :=
  connLoopOuter vs ch (oneTo md)

/-- Everything build_svg computes before writing files: the layering
results (exposed for specification purposes), the node and connector
primitives in emission order, the vertex map with geometry written back,
and the iframe dimensions of the wrapper document
(lib.rs lines 483-484). -/
structure SvgOutput where
  max_depth : Nat
  max_height : Nat
  column_hash : ColumnHash
  nodes : List NodePrim
  vertices : List (String × SasDigraphVertex)
  lines : List LinePrim
  svg_width : Nat
  svg_height : Nat
deriving DecidableEq

/-- build_svg (lib.rs lines 248-494) as a pure function: layering walk
from all initiators, max_height computation, vertex emission, connector
emission.  Each phase aborts the run on error; the output files are
written only after every phase has succeeded, so an error means no file
is produced. -/
def build_svg (g : SasDigraph) (fuel : Nat) : Except RunError SvgOutput :=
  match layering g fuel with
  | .lookupFailure => .error .failedLookup
  | .outOfFuel => .error .outOfFuel
  | .ok (md, ch) =>
    let mh := max_height_calc ch md
    match emitNodes mh ch md g.vertices with
    | .error e => .error e
    | .ok (nodes, vs2) =>
      match connAll vs2 ch md with
      | .error e => .error e
      | .ok lines =>
        .ok { max_depth := md, max_height := mh, column_hash := ch,
              nodes := nodes, vertices := vs2, lines := lines,
              svg_width := Nat.max 1200 (md * 250),
              svg_height := Nat.max 1100 (mh * 150) }

/-- Modelled from the spec: the nvpair name constants PG_NAME, PG_VALS,
PROP_NAME and PROP_VALUE are imported from the external topo_digraph_xml
crate, whose source is not part of this repository.  The claims depend
only on these four names being pairwise distinct match keys, not on their
concrete spellings, so representative distinct values are used. -/
def PG_NAME : String := "pgroup-name"

/-- Modelled from the spec: see PG_NAME. -/
def PG_VALS : String := "pgroup-values"

/-- Modelled from the spec: see PG_NAME. -/
def PROP_NAME : String := "prop-name"

/-- Modelled from the spec: see PG_NAME. -/
def PROP_VALUE : String := "prop-value"

/-- An element of an nvpair's array payload: only its optional value
string is read by the source (lib.rs line 193). -/
structure ArrElem where
  value : Option String
deriving DecidableEq

/-- An NvpairXML node of the deserialized attribute tree, with the four
fields the source reads: name, value, nvpair_elements (array payload) and
nvlist_elements (nested nvlist payload).  Each nested nvlist
(NvlistXmlArrayElement in the external crate) is represented by its one
field the source reads, the optional nvpair list. -/
inductive NvpairXML : Type where
  | mk : Option String → Option String → Option (List ArrElem) →
      Option (List (Option (List NvpairXML))) → NvpairXML

/-- Name field accessor of NvpairXML. -/
def NvpairXML.name : NvpairXML → Option String
  | .mk n _ _ _ => n

/-- Value field accessor of NvpairXML. -/
def NvpairXML.value : NvpairXML → Option String
  | .mk _ v _ _ => v

/-- Array-payload field accessor of NvpairXML. -/
def NvpairXML.nvpair_elements : NvpairXML → Option (List ArrElem)
  | .mk _ _ e _ => e

/-- Nested-nvlist field accessor of NvpairXML. -/
def NvpairXML.nvlist_elements : NvpairXML → Option (List (Option (List NvpairXML)))
  | .mk _ _ _ l => l

/-- An NvlistXmlArrayElement, represented by its nvpairs field (the only
field the source reads, lib.rs lines 177-178 and 545-546). -/
abbrev NvlistXmlArrayElement : Type := Option (List NvpairXML)

/-- elem.value.as_ref().unwrap() over the array payload (lib.rs lines
192-194): collect every element's value, panicking (none) when an
element has no value. -/
def collectVals : List ArrElem → Option (List String)
  | [] => some []
  | e :: rest =>
    match e.value with
    | none => none
    | some v => (collectVals rest).map (fun vs => v :: vs)

/-- The nvpair scan of parse_prop (lib.rs lines 178-202), threading the
running propname and propval options.  A PROP_NAME pair installs its
value as the name; a PROP_VALUE pair with nvpair_elements installs the
element values joined with a comma, otherwise its plain value; any other
name is skipped.  Unwraps of missing options are the panicked error. -/
def parse_prop_scan : List NvpairXML → Option String → Option String →
    Except RunError (Option String × Option String)
  | [], pn, pv => .ok (pn, pv)
  | p :: rest, pn, pv =>
    match p.name with
    | none => .error .panicked
    | some nm =>
      if nm = PROP_NAME then
        match p.value with
        | none => .error .panicked
        | some v => parse_prop_scan rest (some v) pv
      else if nm = PROP_VALUE then
        match p.nvpair_elements with
        | some elems =>
          match collectVals elems with
          | none => .error .panicked
          | some vs => parse_prop_scan rest pn (some (String.intercalate "," vs))
        | none =>
          match p.value with
          | none => .error .panicked
          | some v => parse_prop_scan rest pn (some v)
      else parse_prop_scan rest pn pv

/-- parse_prop (lib.rs lines 173-213): scan the nvpairs (if present) and
return the property when both name and value were resolved, the
"malformed property value nvlist" error otherwise. -/
def parse_prop (nvl : NvlistXmlArrayElement) : Except RunError SasDigraphProperty :=
  match (match nvl with
         | none => Except.ok ((none : Option String), (none : Option String))
         | some l => parse_prop_scan l none none) with
  | .error e => .error e
  | .ok (pn, pv) =>
    match pn, pv with
    | some n, some v => .ok (SasDigraphProperty.new n v)
    | _, _ => .error .malformedPropertyNvlist

/-- The nvpair scan of one property group (lib.rs lines 545-563),
threading the running pgname (initially the empty string) and props
option (initially none): a PG_NAME pair installs its value as the group
name, a PG_VALS pair with nvlist_elements installs them as the props
list, and any other name is the "Unexpected nvpair name" error. -/
def scan_pg : List NvpairXML → String → Option (List NvlistXmlArrayElement) →
    Except RunError (String × Option (List NvlistXmlArrayElement))
  | [], nm, pr => .ok (nm, pr)
  | p :: rest, nm, pr =>
    match p.name with
    | none => .error .panicked
    | some pname =>
      if pname = PG_NAME then
        match p.value with
        | none => .error .panicked
        | some v => scan_pg rest v pr
      else if pname = PG_VALS then
        match p.nvlist_elements with
        | some els => scan_pg rest nm (some els)
        | none => scan_pg rest nm pr
      else .error .unexpectedNvpairName

/-- Run parse_prop over every property nvlist of a group, in order
(lib.rs lines 586-589). -/
def parse_props : List NvlistXmlArrayElement → Except RunError (List SasDigraphProperty)
  | [] => .ok []
  | nvl :: rest =>
    match parse_prop nvl with
    | .error e => .error e
    | .ok p =>
      match parse_props rest with
      | .error e => .error e
      | .ok ps => .ok (p :: ps)

/-- Processing of one property group (lib.rs lines 539-590): scan its
nvpairs; an empty group name is the "malformed propgroup" error; a group
with no resolvable props list is skipped; a group named "protocol" is
skipped regardless of content; otherwise every contained property is
parsed. -/
def process_pg (pg : NvlistXmlArrayElement) : Except RunError (List SasDigraphProperty) :=
  match (match pg with
         | none => Except.ok ("", (none : Option (List NvlistXmlArrayElement)))
         | some nvps => scan_pg nvps "" none) with
  | .error e => .error e
  | .ok (pgname, props) =>
    if pgname = "" then .error .malformedPropgroup
    else
      match props with
      | none => .ok []
      | some ps =>
        if pgname = "protocol" then .ok []
        else parse_props ps

/-- Processing of all groups inside one pgarr (lib.rs lines 539-590). -/
def process_pgs : List NvlistXmlArrayElement → Except RunError (List SasDigraphProperty)
  | [] => .ok []
  | pg :: rest =>
    match process_pg pg with
    | .error e => .error e
    | .ok ps =>
      match process_pgs rest with
      | .error e => .error e
      | .ok ps2 => .ok (ps ++ ps2)

/-- The propgroups loop (lib.rs lines 537-538):
pgnvl.nvlist_elements.unwrap() panics on a propgroup nvpair with no
nvlist_elements, otherwise its groups are processed in order. -/
def process_propgroups : List NvpairXML → Except RunError (List SasDigraphProperty)
  | [] => .ok []
  | pgnvl :: rest =>
    match pgnvl.nvlist_elements with
    | none => .error .panicked
    | some pgarr =>
      match process_pgs pgarr with
      | .error e => .error e
      | .ok ps =>
        match process_propgroups rest with
        | .error e => .error e
        | .ok ps2 => .ok (ps ++ ps2)

/-- UTF-8 encoding of one character, as plain arithmetic on its code
point. -/
def charBytes (c : Char) : List Nat :=
  let n := c.toNat
  if n < 128 then [n]
  else if n < 2048 then [192 + n / 64, 128 + n % 64]
  else if n < 65536 then [224 + n / 4096, 128 + (n / 64) % 64, 128 + n % 64]
  else [240 + n / 262144, 128 + (n / 4096) % 64, 128 + (n / 64) % 64, 128 + n % 64]

/-- The UTF-8 byte sequence of a string; Rust strings are indexed and
sliced by these bytes. -/
def strBytes (s : String) : List Nat := (s.data.map charBytes).flatten

/-- Whether byte b is a hexadecimal digit (0-9, a-f, A-F). -/
def isHexDigit (b : Nat) : Bool :=
  (48 ≤ b && b ≤ 57) || (97 ≤ b && b ≤ 102) || (65 ≤ b && b ≤ 70)

/-- Numeric value of a hexadecimal digit byte. -/
def hexVal (b : Nat) : Nat :=
  if b ≤ 57 then b - 48 else if b ≤ 70 then b - 55 else b - 87

/-- Accumulate hexadecimal digit bytes left to right; none on the first
non-digit. -/
def hexFold : List Nat → Nat → Option Nat
  | [], acc => some acc
  | b :: rest, acc =>
    if isHexDigit b then hexFold rest (acc * 16 + hexVal b) else none

/-- u64::from_str_radix(digits, 16): an optional leading plus sign, then
a nonempty run of hexadecimal digits whose value fits in 64 bits; none
models every Err of the Rust parser (empty input, invalid digit,
overflow). -/
def from_str_radix16 (bs : List Nat) : Option Nat :=
  match bs with
  | [] => none
  | b :: rest =>
    let digits := if b = 43 then rest else bs
    match digits with
    | [] => none
    | _ =>
      match hexFold digits 0 with
      | none => none
      | some v => if v < 2 ^ 64 then some v else none

/-- Result of decoding a raw vertex's instance field. -/
inductive DecodeResult where
  | ok : Nat → DecodeResult
  | err : DecodeResult
  | panicked : DecodeResult
deriving DecidableEq

/-- Is byte offset i a character boundary of the byte list (offset at the
end, or next byte not a UTF-8 continuation byte)? -/
def isCharBoundary (bs : List Nat) (i : Nat) : Bool :=
  match bs.drop i with
  | [] => true
  | b :: _ => !(128 ≤ b && b < 192)

/-- u64::from_str_radix(&instance[2..], 16) (lib.rs line 517): the
unconditional byte slice panics when the string is shorter than two
bytes or byte offset 2 is not a character boundary; otherwise the
remaining bytes are parsed as hexadecimal, a parse failure being the
ParseIntError (MalformedInput) propagated by the question mark
operator. -/
def decode_instance (s : String) : DecodeResult :=
  let bs := strBytes s
  if bs.length < 2 then .panicked
  else if !isCharBoundary bs 2 then .panicked
  else
    match from_str_radix16 (bs.drop 2) with
    | some v => .ok v
    | none => .err

/-- A raw vertex record of the deserialized XML (the VertexXML of the
external crate), with the fields the source reads: fmri, name, the
hexadecimal instance string (called instanceStr here because instance is
a Lean keyword), the optional outgoing-edge list (flattened to the list
of target FMRIs the source extracts from it, lib.rs lines 519-528) and
the propgroups list. -/
structure VertexXML where
  fmri : String
  name : String
  instanceStr : String
  outgoing_edges : Option (List String)
  propgroups : List NvpairXML

/-- The deserialized TopoDigraphXML: top-level metadata plus the vertex
list (sasxml.vertices.vertex, flattened). -/
structure TopoDigraphXML where
  product_id : String
  nodename : String
  os_version : String
  timestamp : String
  vertices : List VertexXML

/-- Construction of one SasDigraphVertex from its raw record (lib.rs
lines 515-591): decode the instance field, build the vertex with its
edge list, then walk the propgroups pushing extracted properties. -/
def build_vertex (vx : VertexXML) : Except RunError SasDigraphVertex :=
  match decode_instance vx.instanceStr with
  | .panicked => .error .panicked
  | .err => .error .parseIntError
  | .ok inst =>
    let vtx := SasDigraphVertex.new vx.fmri vx.name inst vx.outgoing_edges
    match process_propgroups vx.propgroups with
    | .error e => .error e
    | .ok props => .ok { vtx with properties := props }

/-- The vertex loop of run (lib.rs lines 515-597): build each vertex,
record initiators in discovery order, insert into the FMRI-keyed map. -/
def run_build (g : SasDigraph) : List VertexXML → Except RunError SasDigraph
  | [] => .ok g
  | vx :: rest =>
    match build_vertex vx with
    | .error e => .error e
    | .ok vtx =>
      let inits := if vtx.name = INITIATOR then g.initiators ++ [vtx.fmri]
                   else g.initiators
      run_build
        { g with vertices := insertVtx g.vertices vtx.fmri vtx,
                 initiators := inits } rest

/-- run (lib.rs lines 496-606) minus the filesystem boundary: rebuild the
SasDigraph from the deserialized XML, then build the SVG.  Every error
aborts before any output is produced. -/
def run (xml : TopoDigraphXML) (fuel : Nat) : Except RunError SvgOutput :=
  match run_build
      (SasDigraph.new xml.product_id xml.nodename xml.os_version xml.timestamp)
      xml.vertices with
  | .error e => .error e
  | .ok g => build_svg g fuel

/-- A directed path through the vertex map, recorded as the list of keys
it visits: KPath g v p holds when p starts at v, every key on it
resolves, and consecutive keys are linked by an outgoing edge of the
earlier key's vertex. -/
inductive KPath (g : SasDigraph) : String → List String → Prop
  | single (v : String) (vtx : SasDigraphVertex) (h : getVtx g v = some vtx) :
      KPath g v [v]
  | cons (v : String) (vtx : SasDigraphVertex) (es : List String) (e : String)
      (p : List String) (h : getVtx g v = some vtx)
      (he : vtx.outgoing_edges = some es) (hm : e ∈ es) (hp : KPath g e p) :
      KPath g v (v :: p)

/-- A key is reachable when some path from an initiator passes through
it. -/
def ReachableK (g : SasDigraph) (u : String) : Prop :=
  ∃ f ∈ g.initiators, ∃ p, KPath g f p ∧ u ∈ p

/-- Every outgoing edge of every vertex reachable by a path from k
resolves in the vertex map. -/
def Closure (g : SasDigraph) (k : String) : Prop :=
  ∀ p u vtx es e, KPath g k p → p.getLast? = some u → getVtx g u = some vtx →
    vtx.outgoing_edges = some es → e ∈ es → (getVtx g e).isSome

/-- The fmri field of the vertex at the last key of a path: this is the
string visit_vertex appends to the layer list when it visits that
vertex. -/
def lastFmri (g : SasDigraph) (p : List String) : Option String :=
  (p.getLast?.bind (getVtx g)).map (fun vtx => vtx.fmri)

/-- Soundness characterization of one visit_vertex call at a given fuel:
whenever the walk from the vertex bound to key k at incoming depth d
succeeds, the returned depth is exactly d plus the length (in vertices)
of the longest path from k, the column hash gains exactly the FMRIs of
the path endpoints at depth d + path length, and every edge reachable
from k resolves. -/
def VisitSound (g : SasDigraph) (fuel : Nat) : Prop :=
  ∀ (k : String) (vtx : SasDigraphVertex) (ch : ColumnHash) (d rc : Nat)
    (ch2 : ColumnHash),
    getVtx g k = some vtx →
    visit_vertex g fuel vtx ch d = .ok (rc, ch2) →
    ((∀ p, KPath g k p → d + p.length ≤ rc) ∧
     (∃ p, KPath g k p ∧ d + p.length = rc) ∧
     (∀ j v, v ∈ chGet ch2 j ↔
        (v ∈ chGet ch j ∨
         ∃ p, KPath g k p ∧ d + p.length = j ∧ lastFmri g p = some v)) ∧
     Closure g k)

/-- Soundness characterization of the edge loop at a given fuel, in
terms of the paths through each listed edge target. -/
def EdgesSound (g : SasDigraph) (fuel : Nat) : Prop :=
  ∀ (es : List String) (ch : ColumnHash) (depth md rc : Nat) (ch2 : ColumnHash),
    visitEdges (visit_vertex g fuel) g es ch depth md = .ok (rc, ch2) →
    (md ≤ rc ∧
     (∀ e ∈ es, ∀ p, KPath g e p → depth + 1 + p.length ≤ rc) ∧
     (rc = md ∨ ∃ e ∈ es, ∃ p, KPath g e p ∧ depth + 1 + p.length = rc) ∧
     (∀ j v, v ∈ chGet ch2 j ↔
        (v ∈ chGet ch j ∨
         ∃ e ∈ es, ∃ p, KPath g e p ∧ depth + 1 + p.length = j ∧
           lastFmri g p = some v)) ∧
     (∀ e ∈ es, Closure g e ∧ (getVtx g e).isSome))

/-- Concrete demonstration graph: two initiators r1 and r2, each with one
edge to the shared target s. -/
def gC8 : SasDigraph :=
  { product_id := "", nodename := "", os_version := "", timestamp := "",
    vertices :=
      [("r1", SasDigraphVertex.new "r1" "initiator" 0 (some ["s"])),
       ("r2", SasDigraphVertex.new "r2" "initiator" 0 (some ["s"])),
       ("s", SasDigraphVertex.new "s" "target" 0 none)],
    initiators := ["r1", "r2"] }

/-- Concrete demonstration graph: one initiator i with one edge to the
target t. -/
def gC2 : SasDigraph :=
  { product_id := "", nodename := "", os_version := "", timestamp := "",
    vertices :=
      [("i", SasDigraphVertex.new "i" "initiator" 0 (some ["t"])),
       ("t", SasDigraphVertex.new "t" "target" 0 none)],
    initiators := ["i"] }

/-- The full build_svg output on gC2. -/
def outWC2 : SvgOutput :=
  { max_depth := 2, max_height := 1,
    column_hash := [(1, ["i"]), (2, ["t"])],
    nodes := [⟨"i", "assets/icons/initiator.png", 50, 10, 120, 120⟩,
              ⟨"t", "assets/icons/target.png", 300, 10, 120, 120⟩],
    vertices := [("i", ⟨"i", "initiator", 0, [], ⟨50, 10, 120, 120⟩, some ["t"]⟩),
                 ("t", ⟨"t", "target", 0, [], ⟨300, 10, 120, 120⟩, none⟩)],
    lines := [⟨170, 70, 220, 70⟩, ⟨220, 70, 220, 70⟩, ⟨220, 70, 300, 70⟩],
    svg_width := 1200, svg_height := 1100 }

/-- Concrete demonstration graph: a single edge-free initiator i0. -/
def gW1 : SasDigraph :=
  { product_id := "", nodename := "", os_version := "", timestamp := "",
    vertices := [("i0", SasDigraphVertex.new "i0" "initiator" 7 none)],
    initiators := ["i0"] }

/-- Concrete demonstration graph: one initiator i whose only outgoing
edge names the absent vertex x. -/
def gW4 : SasDigraph :=
  { product_id := "", nodename := "", os_version := "", timestamp := "",
    vertices := [("i", SasDigraphVertex.new "i" "initiator" 0 (some ["x"]))],
    initiators := ["i"] }

/-- Concrete demonstration graph: an initiator i with one edge to the
target t, plus one vertex z that no edge reaches. -/
def gW10 : SasDigraph :=
  { product_id := "", nodename := "", os_version := "", timestamp := "",
    vertices := [("i", SasDigraphVertex.new "i" "initiator" 0 (some ["t"])),
                 ("t", SasDigraphVertex.new "t" "target" 1 none),
                 ("z", SasDigraphVertex.new "z" "target" 3 none)],
    initiators := ["i"] }

/-- The full build_svg output on gW10: the reachable chain i, t is drawn
with three connector lines, while the unreachable z appears nowhere. -/
def outW10 : SvgOutput :=
  { max_depth := 2, max_height := 1,
    column_hash := [(1, ["i"]), (2, ["t"])],
    nodes := [⟨"i", "assets/icons/initiator.png", 50, 10, 120, 120⟩,
              ⟨"t", "assets/icons/target.png", 300, 10, 120, 120⟩],
    vertices := [("i", ⟨"i", "initiator", 0, [], ⟨50, 10, 120, 120⟩, some ["t"]⟩),
                 ("t", ⟨"t", "target", 1, [], ⟨300, 10, 120, 120⟩, none⟩),
                 ("z", SasDigraphVertex.new "z" "target" 3 none)],
    lines := [⟨170, 70, 220, 70⟩, ⟨220, 70, 220, 70⟩, ⟨220, 70, 300, 70⟩],
    svg_width := 1200, svg_height := 1100 }

theorem chGet_chPush (ch : ColumnHash) (k j : Nat) (v : String) :
    chGet (chPush ch k v) j = if j = k then chGet ch j ++ [v] else chGet ch j := by
  induction ch with
  | nil =>
    by_cases h : k = j
    · subst h; simp [chPush, chGet, chLookup]
    · simp [chPush, chGet, chLookup, h, Ne.symm h]
  | cons pr rest ih =>
    obtain ⟨k', l⟩ := pr
    by_cases hk : k' = k
    · subst hk
      by_cases hj : k' = j
      · subst hj
        simp [chPush, chGet, chLookup]
      · simp [chPush, chGet, chLookup, hj, Ne.symm hj]
    · by_cases hj : k' = j
      · subst hj
        simp [chPush, chGet, chLookup, hk]
      · simpa [chPush, chGet, chLookup, hk, hj] using ih

theorem visitEdges_mono (g : SasDigraph)
    (visit : SasDigraphVertex → ColumnHash → Nat → VR (Nat × ColumnHash))
    (hv : ∀ vtx ch depth rc ch2, visit vtx ch depth = .ok (rc, ch2) →
      ∀ j, ∃ suf, chGet ch2 j = chGet ch j ++ suf) :
    ∀ es ch depth md rc ch2,
      visitEdges visit g es ch depth md = .ok (rc, ch2) →
      ∀ j, ∃ suf, chGet ch2 j = chGet ch j ++ suf := by
  intro es
  induction es with
  | nil =>
    intro ch depth md rc ch2 h j
    simp only [visitEdges] at h
    obtain ⟨rfl, rfl⟩ : md = rc ∧ ch = ch2 := by
      cases h; exact ⟨rfl, rfl⟩
    exact ⟨[], by simp⟩
  | cons e rest ih =>
    intro ch depth md rc ch2 h j
    cases hg : getVtx g e with
    | none => simp only [visitEdges, hg] at h; cases h
    | some nv =>
      simp only [visitEdges, hg] at h
      cases hvis : visit nv ch (depth + 1) with
      | ok pr =>
        obtain ⟨rc1, chA⟩ := pr
        simp only [hvis] at h
        obtain ⟨s1, hs1⟩ := hv nv ch (depth + 1) rc1 chA hvis j
        obtain ⟨s2, hs2⟩ := ih chA depth (Nat.max md rc1) rc ch2 h j
        exact ⟨s1 ++ s2, by rw [hs2, hs1, List.append_assoc]⟩
      | lookupFailure => simp only [hvis] at h; cases h
      | outOfFuel => simp only [hvis] at h; cases h

theorem visit_vertex_mono (g : SasDigraph) :
    ∀ fuel vtx ch depth rc ch2,
      visit_vertex g fuel vtx ch depth = .ok (rc, ch2) →
      ∀ j, ∃ suf, chGet ch2 j = chGet ch j ++ suf := by
  intro fuel
  induction fuel with
  | zero => intro vtx ch depth rc ch2 h; cases h
  | succ n ih =>
    intro vtx ch depth rc ch2 h j
    cases hoe : vtx.outgoing_edges with
    | none =>
      simp only [visit_vertex, hoe] at h
      obtain ⟨rfl, rfl⟩ : depth + 1 = rc ∧ chPush ch (depth + 1) vtx.fmri = ch2 := by
        cases h; exact ⟨rfl, rfl⟩
      rw [chGet_chPush]
      by_cases hj : j = depth + 1 <;> simp [hj]
    | some es =>
      simp only [visit_vertex, hoe] at h
      obtain ⟨s1, hs1⟩ :=
        visitEdges_mono g (visit_vertex g n) ih es
          (chPush ch (depth + 1) vtx.fmri) depth (depth + 1) rc ch2 h j
      rw [hs1, chGet_chPush]
      by_cases hj : j = depth + 1 <;> simp [hj]

/-- C8: the layering walk does not deduplicate.  First, generally: every
successful visit of a vertex at incoming depth appends exactly one new
occurrence of its FMRI to the layer list of depth + 1, on top of whatever
entries that list already holds.  Second, concretely: in the two-root
graph gC8 whose initiators r1 and r2 both point at the vertex s, the
walk appends s to the depth-2 layer once per visit, so s appears twice in
that list and is counted twice toward that layer's height (max_height 2),
even though the vertex map holds s only once. -/
theorem C8_layering_no_dedup :
    (∀ (g : SasDigraph) (fuel : Nat) (vtx : SasDigraphVertex) (ch : ColumnHash)
      (depth rc : Nat) (ch2 : ColumnHash),
      visit_vertex g (fuel + 1) vtx ch depth = .ok (rc, ch2) →
      ∃ suf, chGet ch2 (depth + 1) = chGet ch (depth + 1) ++ [vtx.fmri] ++ suf) ∧
    layering gC8 3 = .ok (2, [(1, ["r1", "r2"]), (2, ["s", "s"])]) ∧
    chGet [(1, ["r1", "r2"]), (2, ["s", "s"])] 2 = ["s", "s"] ∧
    max_height_calc [(1, ["r1", "r2"]), (2, ["s", "s"])] 2 = 2 ∧
    List.count "s" (keys gC8) = 1 := by
  refine ⟨?_, by decide, by decide, by decide, by decide⟩
  intro g fuel vtx ch depth rc ch2 h
  cases hoe : vtx.outgoing_edges with
  | none =>
    simp only [visit_vertex, hoe] at h
    obtain ⟨rfl, rfl⟩ : depth + 1 = rc ∧ chPush ch (depth + 1) vtx.fmri = ch2 := by
      cases h; exact ⟨rfl, rfl⟩
    exact ⟨[], by simp [chGet_chPush]⟩
  | some es =>
    simp only [visit_vertex, hoe] at h
    obtain ⟨suf, hsuf⟩ :=
      visitEdges_mono g (visit_vertex g fuel) (visit_vertex_mono g fuel) es
        (chPush ch (depth + 1) vtx.fmri) depth (depth + 1) rc ch2 h (depth + 1)
    refine ⟨suf, ?_⟩
    rw [hsuf, chGet_chPush]
    simp

/-- Closed witness for C8's general conjunct: visiting the edge-free
vertex s at incoming depth 0 with an empty column hash appends exactly
its FMRI to layer 1. -/
theorem C8_layering_no_dedup_witness :
    ∃ suf, chGet [(1, ["s"])] 1 = chGet [] 1 ++ ["s"] ++ suf :=
  C8_layering_no_dedup.1 gC8 0 (SasDigraphVertex.new "s" "target" 0 none)
    [] 0 1 [(1, ["s"])] (by decide)

/-- C5: decoding a raw vertex's instance field strips the leading
two-byte radix marker and parses the remainder as hexadecimal.  The
string 0x1f decodes to 31; in general, for a string of at least two
bytes (with byte 2 on a character boundary), the decode result is
exactly the hexadecimal parse of the bytes after the first two; and when
that parse fails, a run whose first vertex carries the offending
instance string fails with the ParseIntError (the MalformedInput error
of the spec taxonomy). -/
theorem C5_instance_hex_decode :
    decode_instance "0x1f" = .ok 31 ∧
    (∀ s, 2 ≤ (strBytes s).length → isCharBoundary (strBytes s) 2 = true →
      decode_instance s =
        (match from_str_radix16 ((strBytes s).drop 2) with
         | some v => .ok v
         | none => .err)) ∧
    (∀ xml fuel vx rest, xml.vertices = vx :: rest →
      decode_instance vx.instanceStr = .err →
      run xml fuel = .error .parseIntError) := by
  refine ⟨by decide, ?_, ?_⟩
  · intro s h1 h2
    unfold decode_instance
    rw [if_neg (by omega), if_neg (by simp [h2])]
  · intro xml fuel vx rest hv hd
    unfold run
    rw [hv]
    simp only [run_build, build_vertex, hd]

/-- Closed witness for C5: the instance string 0xzz has two leading
bytes but no valid hexadecimal body, so decoding yields the parse error
and a run whose sole vertex carries it fails with ParseIntError. -/
theorem C5_instance_hex_decode_witness :
    decode_instance "0xzz" = DecodeResult.err ∧
    run { product_id := "p", nodename := "n", os_version := "o", timestamp := "t",
          vertices := [{ fmri := "v", name := "target", instanceStr := "0xzz",
                         outgoing_edges := none, propgroups := [] }] } 1 =
      .error .parseIntError := by
  have h1 : decode_instance "0xzz" = DecodeResult.err := by
    rw [C5_instance_hex_decode.2.1 "0xzz" (by decide) (by decide)]
    decide
  refine ⟨h1, ?_⟩
  exact C5_instance_hex_decode.2.2 _ 1 _ [] rfl h1

/-- C9: an instance string shorter than two bytes (or whose byte offset
2 falls inside a multi-byte character) makes the unconditional slice of
the first two bytes panic: graph construction aborts with the panic
outcome, which is distinct from every diagnosable error value, in
particular from the ParseIntError that a mere parse failure would
produce. -/
theorem C9_short_instance_panics :
    (∀ s, (strBytes s).length < 2 → decode_instance s = .panicked) ∧
    (∀ s, 2 ≤ (strBytes s).length → isCharBoundary (strBytes s) 2 = false →
      decode_instance s = .panicked) ∧
    decode_instance "" = .panicked ∧
    decode_instance "0" = .panicked ∧
    (∀ xml fuel vx rest, xml.vertices = vx :: rest →
      decode_instance vx.instanceStr = .panicked →
      run xml fuel = .error .panicked) ∧
    RunError.panicked ≠ RunError.parseIntError := by
  refine ⟨?_, ?_, by decide, by decide, ?_, by decide⟩
  · intro s h1
    unfold decode_instance
    rw [if_pos h1]
  · intro s h1 h2
    unfold decode_instance
    rw [if_neg (by omega), if_pos (by simp [h2])]
  · intro xml fuel vx rest hv hd
    unfold run
    rw [hv]
    simp only [run_build, build_vertex, hd]

/-- Closed witness for C9: the one-byte instance string 0 (and the empty
string) panic, and a run whose sole vertex carries it aborts with the
panic outcome. -/
theorem C9_short_instance_panics_witness :
    decode_instance "0" = DecodeResult.panicked ∧
    run { product_id := "p", nodename := "n", os_version := "o", timestamp := "t",
          vertices := [{ fmri := "v", name := "target", instanceStr := "0",
                         outgoing_edges := none, propgroups := [] }] } 1 =
      .error .panicked := by
  have h1 : decode_instance "0" = DecodeResult.panicked :=
    C9_short_instance_panics.1 "0" (by decide)
  exact ⟨h1, C9_short_instance_panics.2.2.2.2.1 _ 1 _ [] rfl h1⟩

/-- C6: a property group whose scanned name attribute is the literal
"protocol" contributes no properties to the vertex, whatever its
contents: process_pg returns the empty property list. -/
theorem C6_protocol_group_contributes_nothing :
    ∀ (nvps : List NvpairXML) (props : Option (List NvlistXmlArrayElement)),
      scan_pg nvps "" none = .ok ("protocol", props) →
      process_pg (some nvps) = .ok [] := by
  intro nvps props hscan
  unfold process_pg
  dsimp only
  rw [hscan]
  cases props <;> simp

/-- Closed witness for C6: a concrete protocol-named group carrying a
property payload still contributes nothing. -/
theorem C6_protocol_group_contributes_nothing_witness :
    process_pg (some
      [NvpairXML.mk (some PG_NAME) (some "protocol") none none,
       NvpairXML.mk (some PG_VALS) none none
         (some [some [NvpairXML.mk (some PROP_NAME) (some "a") none none,
                      NvpairXML.mk (some PROP_VALUE) (some "b") none none]])]) =
      .ok [] :=
  C6_protocol_group_contributes_nothing _
    (some [some [NvpairXML.mk (some PROP_NAME) (some "a") none none,
                 NvpairXML.mk (some PROP_VALUE) (some "b") none none]]) rfl

/-- C7: a property node whose value nvpair carries nested array elements
extracts to the single string joining the element values with commas. -/
theorem C7_array_values_joined :
    ∀ (n : String) (pv : Option String) (elems : List ArrElem) (vs : List String),
      collectVals elems = some vs →
      parse_prop (some [NvpairXML.mk (some PROP_NAME) (some n) none none,
                        NvpairXML.mk (some PROP_VALUE) pv (some elems) none]) =
        .ok (SasDigraphProperty.new n (String.intercalate "," vs)) := by
  intro n pv elems vs h
  simp [parse_prop, parse_prop_scan, NvpairXML.name, NvpairXML.value,
    NvpairXML.nvpair_elements, PROP_NAME, PROP_VALUE, h]

/-- Closed witness for C7: the array values a, b, c extract to the
single string a,b,c. -/
theorem C7_array_values_joined_witness :
    parse_prop (some [NvpairXML.mk (some PROP_NAME) (some "phy") none none,
                      NvpairXML.mk (some PROP_VALUE) none
                        (some [⟨some "a"⟩, ⟨some "b"⟩, ⟨some "c"⟩]) none]) =
      .ok (SasDigraphProperty.new "phy" "a,b,c") := by
  rw [C7_array_values_joined "phy" none [⟨some "a"⟩, ⟨some "b"⟩, ⟨some "c"⟩]
       ["a", "b", "c"] rfl]
  rfl

theorem edgeLines_length (vs : List (String × SasDigraphVertex)) (sx sy : Nat) :
    ∀ es ls, edgeLines vs sx sy es = .ok ls → ls.length = 2 * es.length := by
  intro es
  induction es with
  | nil => intro ls h; cases h; rfl
  | cons e rest ih =>
    intro ls h
    cases hg : vlookup vs e with
    | none => simp only [edgeLines, hg] at h; cases h
    | some evtx =>
      simp only [edgeLines, hg] at h
      cases hrest : edgeLines vs sx sy rest with
      | ok ls2 =>
        simp only [hrest] at h
        cases h
        simp only [List.length_cons, List.length]
        have := ih ls2 hrest
        omega
      | error er => simp only [hrest] at h; cases h

/-- C3: connector emission contributions per layer-list occurrence.  A
vertex with no outgoing-edge list contributes no connector primitives; a
vertex whose edge list has k entries contributes exactly 1 + 2k: one
exit connector plus a vertical and a horizontal segment per edge.  The
layer loop emits exactly the concatenation of these per-occurrence
contributions, in layer-list order. -/
theorem C3_connector_counts :
    (∀ vs f vtx, vlookup vs f = some vtx → vtx.outgoing_edges = none →
      connectorsFor vs f = .ok []) ∧
    (∀ vs f vtx es ls, vlookup vs f = some vtx →
      vtx.outgoing_edges = some es → connectorsFor vs f = .ok ls →
      ls.length = 1 + 2 * es.length) ∧
    (∀ vs f rest lines, connLoopLayer vs (f :: rest) = .ok lines →
      ∃ ls ls2, connectorsFor vs f = .ok ls ∧ connLoopLayer vs rest = .ok ls2 ∧
        lines = ls ++ ls2) := by
  refine ⟨?_, ?_, ?_⟩
  · intro vs f vtx hv hoe
    simp only [connectorsFor, hv, hoe]
  · intro vs f vtx es ls hv hoe h
    simp only [connectorsFor, hv, hoe] at h
    cases hE : edgeLines vs (vtx.geometry.x + 120 + 50) (vtx.geometry.y + 120 / 2) es with
    | ok ls2 =>
      simp only [hE] at h
      cases h
      have := edgeLines_length vs _ _ es ls2 hE
      simp only [List.length_cons]
      omega
    | error er => simp only [hE] at h; cases h
  · intro vs f rest lines h
    cases hc : connectorsFor vs f with
    | error e => simp only [connLoopLayer, hc] at h; cases h
    | ok ls =>
      simp only [connLoopLayer, hc] at h
      cases hr : connLoopLayer vs rest with
      | error e => simp only [hr] at h; cases h
      | ok ls2 =>
        simp only [hr] at h
        cases h
        exact ⟨ls, ls2, rfl, rfl, rfl⟩

/-- Closed witness for C3: an edge-free vertex contributes no lines, a
one-edge vertex contributes three (one exit plus one vertical and one
horizontal segment), and a two-entry layer list emits the concatenation
of the two contributions. -/
theorem C3_connector_counts_witness :
    connectorsFor [("a", SasDigraphVertex.new "a" "target" 0 none)] "a" = .ok [] ∧
    ([(⟨120, 60, 170, 60⟩ : LinePrim), ⟨170, 60, 170, 60⟩,
      ⟨170, 60, 0, 60⟩].length = 1 + 2 * ["t"].length) ∧
    (∃ ls ls2,
      connectorsFor [("a", SasDigraphVertex.new "a" "target" 0 none)] "a" = .ok ls ∧
      connLoopLayer [("a", SasDigraphVertex.new "a" "target" 0 none)] ["a"] = .ok ls2 ∧
      ([] : List LinePrim) = ls ++ ls2) := by
  refine ⟨C3_connector_counts.1 _ "a" _ rfl rfl, ?_, ?_⟩
  · exact C3_connector_counts.2.1
      [("i", SasDigraphVertex.new "i" "initiator" 0 (some ["t"])),
       ("t", SasDigraphVertex.new "t" "target" 0 none)] "i"
      (SasDigraphVertex.new "i" "initiator" 0 (some ["t"])) ["t"]
      [⟨120, 60, 170, 60⟩, ⟨170, 60, 170, 60⟩, ⟨170, 60, 0, 60⟩]
      rfl rfl rfl
  · exact C3_connector_counts.2.2 _ "a" [] [] rfl

theorem vlookup_setVtx (vs : List (String × SasDigraphVertex))
    (f : String) (v2 : SasDigraphVertex) (k : String) :
    vlookup (setVtx vs f v2) k =
      if k = f then (vlookup vs f).map (fun _ => v2) else vlookup vs k := by
  induction vs with
  | nil => by_cases h : k = f <;> simp [setVtx, vlookup, h]
  | cons pr rest ih =>
    obtain ⟨k', w⟩ := pr
    by_cases hf : k' = f
    · subst hf
      by_cases hk : k' = k
      · subst hk; simp [setVtx, vlookup]
      · simp [setVtx, vlookup, hk, Ne.symm hk]
    · by_cases hk : k' = k
      · subst hk
        simp [setVtx, vlookup, hf, Ne.symm hf]
      · simp only [setVtx, if_neg hf, vlookup, if_neg hk]
        exact ih

theorem nodeLoopInner_extends (mh L d : Nat) :
    ∀ (rest : List String) (i0 : Nat) (acc : List NodePrim)
      (vs : List (String × SasDigraphVertex)) (out : List NodePrim)
      (vs2 : List (String × SasDigraphVertex)),
      nodeLoopInner mh L d rest i0 acc vs = .ok (out, vs2) →
      ∃ tail, out = acc ++ tail := by
  intro rest
  induction rest with
  | nil =>
    intro i0 acc vs out vs2 h
    cases h
    exact ⟨[], by simp⟩
  | cons f r ih =>
    intro i0 acc vs out vs2 h
    cases hg : vlookup vs f with
    | none => simp only [nodeLoopInner, hg] at h; cases h
    | some vtxI =>
      simp only [nodeLoopInner, hg] at h
      cases hu : imguriFor vtxI.name with
      | none => simp only [hu] at h; cases h
      | some uri =>
        simp only [hu] at h
        obtain ⟨tail, htail⟩ := ih _ _ _ _ _ h
        refine ⟨{ fmri := f, href := uri, x := (d - 1) * 250 + 50,
                  y := (i0 + 1 - 1) * 150 * (if i0 + 1 = 1 then 1 else mh / L) + 10,
                  width := 120, height := 120 } :: tail, ?_⟩
        rw [htail]
        simp

theorem nodeLoopInner_names (mh L d : Nat) :
    ∀ (rest : List String) (i0 : Nat) (acc : List NodePrim)
      (vs : List (String × SasDigraphVertex)) (out : List NodePrim)
      (vs2 : List (String × SasDigraphVertex)),
      nodeLoopInner mh L d rest i0 acc vs = .ok (out, vs2) →
      ∀ k, Option.map SasDigraphVertex.name (vlookup vs2 k) =
           Option.map SasDigraphVertex.name (vlookup vs k) := by
  intro rest
  induction rest with
  | nil =>
    intro i0 acc vs out vs2 h k
    cases h
    rfl
  | cons f r ih =>
    intro i0 acc vs out vs2 h k
    cases hg : vlookup vs f with
    | none => simp only [nodeLoopInner, hg] at h; cases h
    | some vtxI =>
      simp only [nodeLoopInner, hg] at h
      cases hu : imguriFor vtxI.name with
      | none => simp only [hu] at h; cases h
      | some uri =>
        simp only [hu] at h
        rw [ih _ _ _ _ _ h k, vlookup_setVtx]
        by_cases hk : k = f
        · simp [hk, hg]
        · simp [hk]

theorem nodeLoopInner_mem (mh L d : Nat) (vs0 : List (String × SasDigraphVertex)) :
    ∀ (rest : List String) (i0 : Nat) (acc : List NodePrim)
      (vs : List (String × SasDigraphVertex)) (out : List NodePrim)
      (vs2 : List (String × SasDigraphVertex)),
      nodeLoopInner mh L d rest i0 acc vs = .ok (out, vs2) →
      (∀ k, Option.map SasDigraphVertex.name (vlookup vs k) =
            Option.map SasDigraphVertex.name (vlookup vs0 k)) →
      ∀ (j : Nat) (hj : j < rest.length) (vtx0 : SasDigraphVertex) (uri : String),
        vlookup vs0 (rest.get ⟨j, hj⟩) = some vtx0 →
        imguriFor vtx0.name = some uri →
        NodePrim.mk (rest.get ⟨j, hj⟩) uri ((d - 1) * 250 + 50)
          ((i0 + j) * 150 * (if i0 + j = 0 then 1 else mh / L) + 10) 120 120 ∈ out := by
  intro rest
  induction rest with
  | nil =>
    intro i0 acc vs out vs2 h hinv j hj
    exact absurd hj (by simp)
  | cons f r ih =>
    intro i0 acc vs out vs2 h hinv j hj vtx0 uri hv0 hu0
    cases hg : vlookup vs f with
    | none => simp only [nodeLoopInner, hg] at h; cases h
    | some vtxI =>
      simp only [nodeLoopInner, hg] at h
      cases j with
      | zero =>
        have hv0' : vlookup vs0 f = some vtx0 := hv0
        have hname : vtxI.name = vtx0.name := by
          have hh := hinv f
          rw [hg, hv0'] at hh
          simpa using hh
        have huI : imguriFor vtxI.name = some uri := by rw [hname]; exact hu0
        simp only [huI] at h
        obtain ⟨tail, htail⟩ := nodeLoopInner_extends mh L d _ _ _ _ _ _ h
        have hmem : NodePrim.mk f uri ((d - 1) * 250 + 50)
            ((i0 + 1 - 1) * 150 * (if i0 + 1 = 1 then 1 else mh / L) + 10) 120 120
            ∈ out := by
          rw [htail]; simp
        simpa using hmem
      | succ jj =>
        cases hu : imguriFor vtxI.name with
        | none => simp only [hu] at h; cases h
        | some uriI =>
          simp only [hu] at h
          have hinv' : ∀ (v2 : SasDigraphVertex), v2.name = vtxI.name → ∀ k,
              Option.map SasDigraphVertex.name (vlookup (setVtx vs f v2) k) =
              Option.map SasDigraphVertex.name (vlookup vs0 k) := by
            intro v2 hv2 k
            rw [vlookup_setVtx]
            by_cases hk : k = f
            · have hh := hinv f
              rw [hg] at hh
              simp only [hk, hg, Option.map_some]
              simpa [hv2] using hh
            · simp only [if_neg hk]
              exact hinv k
          have hres := ih (i0 + 1) _ _ _ _ h (hinv' _ rfl) jj (by simpa using hj)
            vtx0 uri hv0 hu0
          simpa [show i0 + 1 + jj = i0 + (jj + 1) from by omega] using hres

theorem nodeLoopOuter_extends (mh : Nat) (ch : ColumnHash) :
    ∀ (ds : List Nat) (acc : List NodePrim)
      (vs : List (String × SasDigraphVertex)) (out : List NodePrim)
      (vs2 : List (String × SasDigraphVertex)),
      nodeLoopOuter mh ch ds acc vs = .ok (out, vs2) →
      ∃ tail, out = acc ++ tail := by
  intro ds
  induction ds with
  | nil =>
    intro acc vs out vs2 h
    cases h
    exact ⟨[], by simp⟩
  | cons dd ds' ih =>
    intro acc vs out vs2 h
    cases hcl : chLookup ch dd with
    | none => simp only [nodeLoopOuter, hcl] at h; cases h
    | some layer =>
      simp only [nodeLoopOuter, hcl] at h
      cases hin : nodeLoopInner mh layer.length dd layer 0 acc vs with
      | error e => simp only [hin] at h; cases h
      | ok pr =>
        obtain ⟨acc2, vsA⟩ := pr
        simp only [hin] at h
        obtain ⟨t2, ht2⟩ := ih _ _ _ _ h
        obtain ⟨t1, ht1⟩ := nodeLoopInner_extends mh layer.length dd _ _ _ _ _ _ hin
        exact ⟨t1 ++ t2, by rw [ht2, ht1]; simp⟩

theorem nodeLoopOuter_mem (mh : Nat) (ch : ColumnHash)
    (vs0 : List (String × SasDigraphVertex)) :
    ∀ (ds : List Nat) (acc : List NodePrim)
      (vs : List (String × SasDigraphVertex)) (out : List NodePrim)
      (vs2 : List (String × SasDigraphVertex)),
      nodeLoopOuter mh ch ds acc vs = .ok (out, vs2) →
      (∀ k, Option.map SasDigraphVertex.name (vlookup vs k) =
            Option.map SasDigraphVertex.name (vlookup vs0 k)) →
      ∀ d ∈ ds, ∀ (L : List String), chLookup ch d = some L →
      ∀ (j : Nat) (hj : j < L.length) (vtx0 : SasDigraphVertex) (uri : String),
        vlookup vs0 (L.get ⟨j, hj⟩) = some vtx0 →
        imguriFor vtx0.name = some uri →
        NodePrim.mk (L.get ⟨j, hj⟩) uri ((d - 1) * 250 + 50)
          (j * 150 * (if j = 0 then 1 else mh / L.length) + 10) 120 120 ∈ out := by
  intro ds
  induction ds with
  | nil =>
    intro acc vs out vs2 h hinv d hd
    exact absurd hd (by simp)
  | cons dd ds' ih =>
    intro acc vs out vs2 h hinv d hd L hL j hj vtx0 uri hv0 hu0
    cases hcl : chLookup ch dd with
    | none => simp only [nodeLoopOuter, hcl] at h; cases h
    | some layer =>
      simp only [nodeLoopOuter, hcl] at h
      cases hin : nodeLoopInner mh layer.length dd layer 0 acc vs with
      | error e => simp only [hin] at h; cases h
      | ok pr =>
        obtain ⟨acc2, vsA⟩ := pr
        simp only [hin] at h
        rcases List.mem_cons.mp hd with hd' | hd'
        · subst hd'
          have hLeq : L = layer := Option.some.inj (hL.symm.trans hcl)
          subst hLeq
          have hmem := nodeLoopInner_mem mh L.length d vs0 L 0 acc vs acc2 vsA
            hin hinv j hj vtx0 uri hv0 hu0
          obtain ⟨tail, htail⟩ := nodeLoopOuter_extends mh ch ds' _ _ _ _ h
          rw [htail]
          simp only [List.mem_append]
          left
          simpa using hmem
        · have hinv' : ∀ k, Option.map SasDigraphVertex.name (vlookup vsA k) =
              Option.map SasDigraphVertex.name (vlookup vs0 k) := fun k =>
            (nodeLoopInner_names mh layer.length dd _ _ _ _ _ _ hin k).trans (hinv k)
          exact ih _ _ _ _ h hinv' d hd' L hL j hj vtx0 uri hv0 hu0

theorem mem_oneTo (d md : Nat) (h1 : 1 ≤ d) (h2 : d ≤ md) : d ∈ oneTo md := by
  simp only [oneTo, List.mem_map, List.mem_range]
  exact ⟨d - 1, by omega, by omega⟩

/-- C2: node-coordinate synthesis.  For every vertex occurrence placed at
layer depth (1-indexed) and position height (1-indexed) within that
layer's list, a successful build_svg emits a node primitive at
x = (depth - 1) * 250 + 50 and
y = (height - 1) * 150 * y_factor + 10, with y_factor = 1 when height is
1 and otherwise floor(max_height / layer_length), the node's width and
height both 120. -/
theorem C2_node_coordinates (g : SasDigraph) (fuel : Nat) (out : SvgOutput)
    (h : build_svg g fuel = .ok out)
    (d : Nat) (hd1 : 1 ≤ d) (hd2 : d ≤ out.max_depth)
    (L : List String) (hL : chLookup out.column_hash d = some L)
    (height : Nat) (hh1 : 1 ≤ height) (hlt : height - 1 < L.length)
    (vtx : SasDigraphVertex) (uri : String)
    (hv : getVtx g (L.get ⟨height - 1, hlt⟩) = some vtx)
    (hu : imguriFor vtx.name = some uri) :
    NodePrim.mk (L.get ⟨height - 1, hlt⟩) uri ((d - 1) * 250 + 50)
      ((height - 1) * 150 *
        (if height = 1 then 1 else out.max_height / L.length) + 10) 120 120
      ∈ out.nodes := by
  cases hlay : layering g fuel with
  | lookupFailure => simp only [build_svg, hlay] at h; cases h
  | outOfFuel => simp only [build_svg, hlay] at h; cases h
  | ok pr =>
    obtain ⟨md, ch⟩ := pr
    simp only [build_svg, hlay] at h
    cases hemit : emitNodes (max_height_calc ch md) ch md g.vertices with
    | error e => simp only [hemit] at h; cases h
    | ok pr2 =>
      obtain ⟨nodes, vsOut⟩ := pr2
      simp only [hemit] at h
      cases hconn : connAll vsOut ch md with
      | error e => simp only [hconn] at h; cases h
      | ok lines =>
        simp only [hconn] at h
        cases h
        unfold emitNodes at hemit
        have hres := nodeLoopOuter_mem (max_height_calc ch md) ch g.vertices
          (oneTo md) [] g.vertices nodes vsOut hemit (fun _ => rfl)
          d (mem_oneTo d md hd1 hd2) L hL (height - 1) hlt vtx uri hv hu
        simpa [show height - 1 = 0 ↔ height = 1 from by omega] using hres

/-- Closed witness for C2: in the chain graph gC2, the target sits at
layer 2 position 1, giving x = 300 and y = 10 with a 120 by 120 node. -/
theorem C2_node_coordinates_witness :
    NodePrim.mk "t" "assets/icons/target.png" 300 10 120 120 ∈ outWC2.nodes := by
  have h := C2_node_coordinates gC2 4 outWC2 rfl 2 (by decide) (by decide)
    ["t"] rfl 1 (by decide) (by decide)
    (SasDigraphVertex.new "t" "target" 0 none) "assets/icons/target.png" rfl rfl
  simpa using h

theorem KPath_head (g : SasDigraph) (k : String) (p : List String)
    (hp : KPath g k p) : ∃ t, p = k :: t := by
  cases hp with
  | single v vtx h => exact ⟨[], rfl⟩
  | cons v vtx es e t h he hm ht => exact ⟨t, rfl⟩

theorem KPath_cases (g : SasDigraph) (k : String) (vtx : SasDigraphVertex)
    (p : List String) (hk : getVtx g k = some vtx) (hp : KPath g k p) :
    p = [k] ∨ ∃ es e t, vtx.outgoing_edges = some es ∧ e ∈ es ∧ KPath g e t ∧
      p = k :: t := by
  cases hp with
  | single v vtx' h => exact Or.inl rfl
  | cons v vtx' es e t h he hm ht =>
    have hv : vtx' = vtx := by
      rw [hk] at h
      exact (Option.some.inj h).symm
    subst hv
    exact Or.inr ⟨es, e, t, he, hm, ht, rfl⟩

theorem KPath_of_leaf (g : SasDigraph) (k : String) (vtx : SasDigraphVertex)
    (hk : getVtx g k = some vtx) (hoe : vtx.outgoing_edges = none) :
    ∀ p, KPath g k p → p = [k] := by
  intro p hp
  rcases KPath_cases g k vtx p hk hp with rfl | ⟨es, e, t, hes, _, _, _⟩
  · rfl
  · rw [hoe] at hes; cases hes

theorem KPath_resolves (g : SasDigraph) :
    ∀ (k : String) (p : List String), KPath g k p →
      ∀ x ∈ p, ∃ vtx, getVtx g x = some vtx := by
  intro k p hp
  induction hp with
  | single v vtx h =>
    intro x hx
    rw [List.mem_singleton] at hx
    subst hx
    exact ⟨vtx, h⟩
  | cons v vtx es e t h he hm ht ih =>
    intro x hx
    rcases List.mem_cons.mp hx with rfl | hx'
    · exact ⟨vtx, h⟩
    · exact ih x hx'

theorem vlookup_mem_keys (vs : List (String × SasDigraphVertex)) (k : String)
    (vtx : SasDigraphVertex) (h : vlookup vs k = some vtx) :
    k ∈ vs.map (fun pr => pr.1) := by
  induction vs with
  | nil => cases h
  | cons pr rest ih =>
    obtain ⟨k', w⟩ := pr
    by_cases hk : k' = k
    · subst hk; simp
    · simp only [vlookup, if_neg hk] at h
      simpa using Or.inr (ih h)

theorem KPath_subset_keys (g : SasDigraph) (k : String) (p : List String)
    (hp : KPath g k p) : ∀ x ∈ p, x ∈ keys g := by
  intro x hx
  obtain ⟨vtx, hvtx⟩ := KPath_resolves g k p hp x hx
  exact vlookup_mem_keys g.vertices x vtx hvtx

theorem KPath_suffix (g : SasDigraph) :
    ∀ (k : String) (p : List String), KPath g k p →
      ∀ (a : List String) (u : String) (b : List String),
        p = a ++ u :: b → KPath g u (u :: b) := by
  intro k p hp
  induction hp with
  | single v vtx h =>
    intro a u b heq
    cases a with
    | nil =>
      simp only [List.nil_append, List.cons.injEq] at heq
      obtain ⟨rfl, hb⟩ := heq
      rw [← hb]
      exact KPath.single v vtx h
    | cons x a' =>
      simp only [List.cons_append, List.cons.injEq] at heq
      exact absurd heq.2.symm (by simp)
  | cons v vtx es e t h he hm ht ih =>
    intro a u b heq
    cases a with
    | nil =>
      simp only [List.nil_append, List.cons.injEq] at heq
      obtain ⟨rfl, hb⟩ := heq
      rw [← hb]
      exact KPath.cons v vtx es e t h he hm ht
    | cons x a' =>
      simp only [List.cons_append, List.cons.injEq] at heq
      exact ih a' u b heq.2

theorem KPath_dup_cycle (g : SasDigraph) :
    ∀ (k : String) (p : List String), KPath g k p → ¬ p.Nodup →
      ∃ u b, KPath g u (u :: b) ∧ u ∈ b ∧ u ∈ p := by
  intro k p hp
  induction hp with
  | single v vtx h =>
    intro hnd
    exact absurd (by simp) hnd
  | cons v vtx es e t h he hm ht ih =>
    intro hnd
    by_cases hv : v ∈ t
    · exact ⟨v, t, KPath.cons v vtx es e t h he hm ht, hv, by simp⟩
    · have hnd' : ¬ t.Nodup := by
        intro hnd2
        exact hnd (List.nodup_cons.mpr ⟨hv, hnd2⟩)
      obtain ⟨u, b, hub, hmem, hup⟩ := ih hnd'
      exact ⟨u, b, hub, hmem, List.mem_cons_of_mem v hup⟩

theorem nodup_length_le (p keysL : List String) (hnd : p.Nodup)
    (hsub : ∀ x ∈ p, x ∈ keysL) : p.length ≤ keysL.length := by
  calc p.length = p.toFinset.card := (List.toFinset_card_of_nodup hnd).symm
    _ ≤ keysL.toFinset.card := by
        apply Finset.card_le_card
        intro x hx
        rw [List.mem_toFinset] at hx ⊢
        exact hsub x hx
    _ ≤ keysL.length := keysL.toFinset_card_le

theorem KPath_length_le (g : SasDigraph) (k : String) (p : List String)
    (hp : KPath g k p)
    (hacyc : ∀ u b, KPath g u (u :: b) → u ∈ b → u ∉ p) :
    p.length ≤ (keys g).length := by
  by_cases hnd : p.Nodup
  · exact nodup_length_le p (keys g) hnd (KPath_subset_keys g k p hp)
  · obtain ⟨u, b, hub, hmem, hup⟩ := KPath_dup_cycle g k p hp hnd
    exact absurd hup (hacyc u b hub hmem)

theorem lastFmri_single (g : SasDigraph) (k : String) :
    lastFmri g [k] = (getVtx g k).map (fun vtx => vtx.fmri) := by
  simp [lastFmri]

theorem lastFmri_cons (g : SasDigraph) (k x : String) (t : List String) :
    lastFmri g (k :: x :: t) = lastFmri g (x :: t) := by
  simp [lastFmri, List.getLast?_cons_cons]

theorem Closure_step (g : SasDigraph) (k : String) (vtx : SasDigraphVertex)
    (es : List String) (e : String) (hc : Closure g k)
    (hk : getVtx g k = some vtx) (hoe : vtx.outgoing_edges = some es)
    (hme : e ∈ es) : Closure g e := by
  intro p u vtx' es' e' hp hlast hu hes' hee
  apply hc (k :: p) u vtx' es' e'
    (KPath.cons k vtx es e p hk hoe hme hp) ?_ hu hes' hee
  obtain ⟨t, rfl⟩ := KPath_head g e p hp
  rw [List.getLast?_cons_cons]
  exact hlast

theorem visitSound_zero (g : SasDigraph) : VisitSound g 0 := by
  intro k vtx ch d rc ch2 hk h
  exact absurd h (by simp [visit_vertex])

theorem edgesSound_of_visitSound (g : SasDigraph) (fuel : Nat)
    (hv : VisitSound g fuel) : EdgesSound g fuel := by
  intro es
  induction es with
  | nil =>
    intro ch depth md rc ch2 h
    cases h
    refine ⟨le_refl _, by simp, Or.inl rfl, ?_, by simp⟩
    intro j v
    simp
  | cons e rest ih =>
    intro ch depth md rc ch2 h
    cases hg : getVtx g e with
    | none => simp only [visitEdges, hg] at h; cases h
    | some nv =>
      simp only [visitEdges, hg] at h
      cases hvis : visit_vertex g fuel nv ch (depth + 1) with
      | lookupFailure => simp only [hvis] at h; cases h
      | outOfFuel => simp only [hvis] at h; cases h
      | ok pr =>
        obtain ⟨rc1, chA⟩ := pr
        simp only [hvis] at h
        obtain ⟨hQa, hQb, hQc, hQd⟩ := hv e nv ch (depth + 1) rc1 chA hg hvis
        obtain ⟨hRa, hRb, hRc, hRd, hRe⟩ := ih chA depth (Nat.max md rc1) rc ch2 h
        have hmd : md ≤ rc := le_trans (Nat.le_max_left md rc1) hRa
        have hrc1 : rc1 ≤ rc := le_trans (Nat.le_max_right md rc1) hRa
        refine ⟨hmd, ?_, ?_, ?_, ?_⟩
        · intro e' he' p hp
          rcases List.mem_cons.mp he' with rfl | he''
          · exact le_trans (hQa p hp) hrc1
          · exact hRb e' he'' p hp
        · rcases hRc with hrc | ⟨e', he', p, hp, hlen⟩
          · rcases max_choice md rc1 with hm | hm
            · exact Or.inl (hrc.trans hm)
            · right
              obtain ⟨pw, hpw, hpwlen⟩ := hQb
              have hrr : rc = rc1 := hrc.trans hm
              exact ⟨e, List.mem_cons_self e rest, pw, hpw, by omega⟩
          · exact Or.inr ⟨e', List.mem_cons_of_mem e he', p, hp, hlen⟩
        · intro j v
          rw [hRd j v, hQc j v]
          constructor
          · rintro ((hb | ⟨p, hp1, hp2, hp3⟩) | ⟨e', he', p, hp1, hp2, hp3⟩)
            · exact Or.inl hb
            · exact Or.inr ⟨e, List.mem_cons_self e rest, p, hp1, hp2, hp3⟩
            · exact Or.inr ⟨e', List.mem_cons_of_mem e he', p, hp1, hp2, hp3⟩
          · rintro (hb | ⟨e', he', p, hp1, hp2, hp3⟩)
            · exact Or.inl (Or.inl hb)
            · rcases List.mem_cons.mp he' with rfl | he''
              · exact Or.inl (Or.inr ⟨p, hp1, hp2, hp3⟩)
              · exact Or.inr ⟨e', he'', p, hp1, hp2, hp3⟩
        · intro e' he'
          rcases List.mem_cons.mp he' with rfl | he''
          · exact ⟨hQd, by simp [hg]⟩
          · exact hRe e' he''

theorem visitSound_succ (g : SasDigraph) (fuel : Nat)
    (he : EdgesSound g fuel) : VisitSound g (fuel + 1) := by
  intro k vtx ch d rc ch2 hk h
  cases hoe : vtx.outgoing_edges with
  | none =>
    simp only [visit_vertex, hoe] at h
    obtain ⟨rfl, rfl⟩ : d + 1 = rc ∧ chPush ch (d + 1) vtx.fmri = ch2 := by
      cases h; exact ⟨rfl, rfl⟩
    refine ⟨?_, ⟨[k], KPath.single k vtx hk, by simp⟩, ?_, ?_⟩
    · intro p hp
      rw [KPath_of_leaf g k vtx hk hoe p hp]
      simp
    · intro j v
      rw [chGet_chPush]
      by_cases hj : j = d + 1
      · subst hj
        rw [if_pos rfl]
        simp only [List.mem_append, List.mem_singleton]
        constructor
        · rintro (hb | rfl)
          · exact Or.inl hb
          · refine Or.inr ⟨[k], KPath.single k vtx hk, by simp, ?_⟩
            simp [lastFmri, hk]
        · rintro (hb | ⟨p, hp, hlen, hlf⟩)
          · exact Or.inl hb
          · right
            rw [KPath_of_leaf g k vtx hk hoe p hp] at hlf
            simp [lastFmri, hk] at hlf
            exact hlf.symm
      · rw [if_neg hj]
        constructor
        · exact Or.inl
        · rintro (hb | ⟨p, hp, hlen, hlf⟩)
          · exact hb
          · rw [KPath_of_leaf g k vtx hk hoe p hp] at hlen
            simp at hlen
            exact absurd hlen.symm hj
    · intro p u vtx' es' e' hp hlast hu hes' hee
      rw [KPath_of_leaf g k vtx hk hoe p hp] at hlast
      have hu' : u = k := by simpa using hlast.symm
      subst hu'
      have hvv : vtx' = vtx := by
        rw [hk] at hu
        exact (Option.some.inj hu).symm
      subst hvv
      rw [hoe] at hes'
      cases hes'
  | some es =>
    simp only [visit_vertex, hoe] at h
    obtain ⟨hEa, hEb, hEc, hEd, hEe⟩ :=
      he es (chPush ch (d + 1) vtx.fmri) d (d + 1) rc ch2 h
    refine ⟨?_, ?_, ?_, ?_⟩
    · intro p hp
      rcases KPath_cases g k vtx p hk hp with rfl | ⟨es', e, t, hes', hme, ht, rfl⟩
      · simpa using hEa
      · have hes'' : es' = es := by
          rw [hoe] at hes'
          exact (Option.some.inj hes').symm
        subst hes''
        have hb := hEb e hme t ht
        simp only [List.length_cons]
        omega
    · rcases hEc with rfl | ⟨e, hme, p, hp, hlen⟩
      · exact ⟨[k], KPath.single k vtx hk, by simp⟩
      · refine ⟨k :: p, KPath.cons k vtx es e p hk hoe hme hp, ?_⟩
        simp only [List.length_cons]
        omega
    · intro j v
      rw [hEd j v, chGet_chPush]
      by_cases hj : j = d + 1
      · subst hj
        rw [if_pos rfl]
        simp only [List.mem_append, List.mem_singleton]
        constructor
        · rintro ((hb | rfl) | ⟨e, hme, p, hp, hlen, hlf⟩)
          · exact Or.inl hb
          · refine Or.inr ⟨[k], KPath.single k vtx hk, by simp, ?_⟩
            simp [lastFmri, hk]
          · obtain ⟨t, rfl⟩ := KPath_head g e p hp
            simp only [List.length_cons] at hlen
            omega
        · rintro (hb | ⟨p, hp, hlen, hlf⟩)
          · exact Or.inl (Or.inl hb)
          · rcases KPath_cases g k vtx p hk hp with rfl | ⟨es', e, t, hes', hme, ht, rfl⟩
            · left; right
              simp [lastFmri, hk] at hlf
              exact hlf.symm
            · obtain ⟨t0, rfl⟩ := KPath_head g e t ht
              simp only [List.length_cons] at hlen
              omega
      · rw [if_neg hj]
        constructor
        · rintro (hb | ⟨e, hme, p, hp, hlen, hlf⟩)
          · exact Or.inl hb
          · right
            refine ⟨k :: p, KPath.cons k vtx es e p hk hoe hme hp, ?_, ?_⟩
            · simp only [List.length_cons]; omega
            · obtain ⟨t, rfl⟩ := KPath_head g e p hp
              rw [lastFmri_cons]
              exact hlf
        · rintro (hb | ⟨p, hp, hlen, hlf⟩)
          · exact Or.inl hb
          · rcases KPath_cases g k vtx p hk hp with rfl | ⟨es', e, t, hes', hme, ht, rfl⟩
            · simp at hlen
              exact absurd hlen.symm hj
            · have hes'' : es' = es := by
                rw [hoe] at hes'
                exact (Option.some.inj hes').symm
              subst hes''
              right
              refine ⟨e, hme, t, ht, ?_, ?_⟩
              · simp only [List.length_cons] at hlen; omega
              · obtain ⟨t0, rfl⟩ := KPath_head g e t ht
                rw [lastFmri_cons] at hlf
                exact hlf
    · intro p u vtx' es' e' hp hlast hu hes' hee
      rcases KPath_cases g k vtx p hk hp with rfl | ⟨es'', e'', t, hes'', hme, ht, rfl⟩
      · have hu' : u = k := by simpa using hlast.symm
        subst hu'
        have hvv : vtx' = vtx := by
          rw [hk] at hu
          exact (Option.some.inj hu).symm
        subst hvv
        have hes3 : es' = es := by
          rw [hoe] at hes'
          exact (Option.some.inj hes').symm
        subst hes3
        exact (hEe e' hee).2
      · have hes3 : es'' = es := by
          rw [hoe] at hes''
          exact (Option.some.inj hes'').symm
        subst hes3
        have hcl := (hEe e'' hme).1
        obtain ⟨t0, rfl⟩ := KPath_head g e'' t ht
        apply hcl (e'' :: t0) u vtx' es' e' ht ?_ hu hes' hee
        rw [List.getLast?_cons_cons] at hlast
        exact hlast

theorem visit_vertex_sound (g : SasDigraph) : ∀ fuel, VisitSound g fuel := by
  intro fuel
  induction fuel with
  | zero => exact visitSound_zero g
  | succ n ih => exact visitSound_succ g n (edgesSound_of_visitSound g n ih)

theorem layer_roots_sound (g : SasDigraph) (fuel : Nat) :
    ∀ (fs : List String) (ch : ColumnHash) (md rc : Nat) (ch2 : ColumnHash),
      layer_roots g fuel fs ch md = .ok (rc, ch2) →
      (md ≤ rc ∧
       (∀ f ∈ fs, ∀ p, KPath g f p → p.length ≤ rc) ∧
       (rc = md ∨ ∃ f ∈ fs, ∃ p, KPath g f p ∧ p.length = rc) ∧
       (∀ j v, v ∈ chGet ch2 j ↔
          (v ∈ chGet ch j ∨ ∃ f ∈ fs, ∃ p, KPath g f p ∧ p.length = j ∧
            lastFmri g p = some v)) ∧
       (∀ f ∈ fs, Closure g f ∧ (getVtx g f).isSome)) := by
  intro fs
  induction fs with
  | nil =>
    intro ch md rc ch2 h
    cases h
    refine ⟨le_refl _, by simp, Or.inl rfl, ?_, by simp⟩
    intro j v
    simp
  | cons f rest ih =>
    intro ch md rc ch2 h
    cases hg : getVtx g f with
    | none => simp only [layer_roots, hg] at h; cases h
    | some vtx =>
      simp only [layer_roots, hg] at h
      cases hvis : visit_vertex g fuel vtx ch 0 with
      | lookupFailure => simp only [hvis] at h; cases h
      | outOfFuel => simp only [hvis] at h; cases h
      | ok pr =>
        obtain ⟨rc1, chA⟩ := pr
        simp only [hvis] at h
        obtain ⟨hQa, hQb, hQc, hQd⟩ :=
          visit_vertex_sound g fuel f vtx ch 0 rc1 chA hg hvis
        obtain ⟨hRa, hRb, hRc, hRd, hRe⟩ := ih chA (Nat.max md rc1) rc ch2 h
        have hmd : md ≤ rc := le_trans (Nat.le_max_left md rc1) hRa
        have hrc1 : rc1 ≤ rc := le_trans (Nat.le_max_right md rc1) hRa
        refine ⟨hmd, ?_, ?_, ?_, ?_⟩
        · intro f' hf' p hp
          rcases List.mem_cons.mp hf' with rfl | hf''
          · have := hQa p hp
            omega
          · exact hRb f' hf'' p hp
        · rcases hRc with hrc | ⟨f', hf', p, hp, hlen⟩
          · rcases max_choice md rc1 with hm | hm
            · exact Or.inl (hrc.trans hm)
            · right
              obtain ⟨pw, hpw, hpwlen⟩ := hQb
              have hrr : rc = rc1 := hrc.trans hm
              exact ⟨f, List.mem_cons_self f rest, pw, hpw, by omega⟩
          · exact Or.inr ⟨f', List.mem_cons_of_mem f hf', p, hp, hlen⟩
        · intro j v
          rw [hRd j v, hQc j v]
          constructor
          · rintro ((hb | ⟨p, hp1, hp2, hp3⟩) | ⟨f', hf', p, hp1, hp2, hp3⟩)
            · exact Or.inl hb
            · exact Or.inr ⟨f, List.mem_cons_self f rest, p, hp1, by omega, hp3⟩
            · exact Or.inr ⟨f', List.mem_cons_of_mem f hf', p, hp1, hp2, hp3⟩
          · rintro (hb | ⟨f', hf', p, hp1, hp2, hp3⟩)
            · exact Or.inl (Or.inl hb)
            · rcases List.mem_cons.mp hf' with rfl | hf''
              · exact Or.inl (Or.inr ⟨p, hp1, by omega, hp3⟩)
              · exact Or.inr ⟨f', hf'', p, hp1, hp2, hp3⟩
        · intro f' hf'
          rcases List.mem_cons.mp hf' with rfl | hf''
          · exact ⟨hQd, by simp [hg]⟩
          · exact hRe f' hf''

theorem edges_ok (g : SasDigraph) (fuel : Nat)
    (hvok : ∀ (k : String) (vtx : SasDigraphVertex) (ch : ColumnHash) (d : Nat),
      getVtx g k = some vtx → Closure g k →
      (∀ p, KPath g k p → p.length ≤ fuel) →
      ∃ rc ch2, visit_vertex g fuel vtx ch d = .ok (rc, ch2)) :
    ∀ (es : List String) (ch : ColumnHash) (depth md : Nat),
      (∀ e ∈ es, (getVtx g e).isSome) →
      (∀ e ∈ es, Closure g e) →
      (∀ e ∈ es, ∀ p, KPath g e p → p.length ≤ fuel) →
      ∃ rc ch2, visitEdges (visit_vertex g fuel) g es ch depth md = .ok (rc, ch2) := by
  intro es
  induction es with
  | nil =>
    intro ch depth md _ _ _
    exact ⟨md, ch, rfl⟩
  | cons e rest ih =>
    intro ch depth md hres hcl hbnd
    obtain ⟨w, hw⟩ := Option.isSome_iff_exists.mp
      (hres e (List.mem_cons_self e rest))
    obtain ⟨rc1, chA, hvis⟩ := hvok e w ch (depth + 1) hw
      (hcl e (List.mem_cons_self e rest)) (hbnd e (List.mem_cons_self e rest))
    obtain ⟨rc2, ch2, hrest⟩ := ih chA depth (Nat.max md rc1)
      (fun e' he' => hres e' (List.mem_cons_of_mem e he'))
      (fun e' he' => hcl e' (List.mem_cons_of_mem e he'))
      (fun e' he' => hbnd e' (List.mem_cons_of_mem e he'))
    refine ⟨rc2, ch2, ?_⟩
    simp only [visitEdges, hw, hvis]
    exact hrest

theorem visit_ok (g : SasDigraph) :
    ∀ (fuel : Nat) (k : String) (vtx : SasDigraphVertex) (ch : ColumnHash) (d : Nat),
      getVtx g k = some vtx → Closure g k →
      (∀ p, KPath g k p → p.length ≤ fuel) →
      ∃ rc ch2, visit_vertex g fuel vtx ch d = .ok (rc, ch2) := by
  intro fuel
  induction fuel with
  | zero =>
    intro k vtx ch d hk hc hb
    have := hb [k] (KPath.single k vtx hk)
    simp at this
  | succ n ih =>
    intro k vtx ch d hk hc hb
    cases hoe : vtx.outgoing_edges with
    | none =>
      refine ⟨d + 1, chPush ch (d + 1) vtx.fmri, ?_⟩
      simp only [visit_vertex, hoe]
    | some es =>
      have hres : ∀ e ∈ es, (getVtx g e).isSome := by
        intro e he
        exact hc [k] k vtx es e (KPath.single k vtx hk) (by simp) hk hoe he
      have hcl : ∀ e ∈ es, Closure g e :=
        fun e he => Closure_step g k vtx es e hc hk hoe he
      have hbnd : ∀ e ∈ es, ∀ p, KPath g e p → p.length ≤ n := by
        intro e he p hp
        have := hb (k :: p) (KPath.cons k vtx es e p hk hoe he hp)
        simp only [List.length_cons] at this
        omega
      obtain ⟨rc, ch2, hE⟩ := edges_ok g n ih es
        (chPush ch (d + 1) vtx.fmri) d (d + 1) hres hcl hbnd
      refine ⟨rc, ch2, ?_⟩
      simp only [visit_vertex, hoe]
      exact hE

theorem roots_ok (g : SasDigraph) (fuel : Nat) :
    ∀ (fs : List String) (ch : ColumnHash) (md : Nat),
      (∀ f ∈ fs, (getVtx g f).isSome) →
      (∀ f ∈ fs, Closure g f) →
      (∀ f ∈ fs, ∀ p, KPath g f p → p.length ≤ fuel) →
      ∃ rc ch2, layer_roots g fuel fs ch md = .ok (rc, ch2) := by
  intro fs
  induction fs with
  | nil =>
    intro ch md _ _ _
    exact ⟨md, ch, rfl⟩
  | cons f rest ih =>
    intro ch md hres hcl hbnd
    obtain ⟨vtx, hv⟩ := Option.isSome_iff_exists.mp
      (hres f (List.mem_cons_self f rest))
    obtain ⟨rc1, chA, hvis⟩ := visit_ok g fuel f vtx ch 0 hv
      (hcl f (List.mem_cons_self f rest)) (hbnd f (List.mem_cons_self f rest))
    obtain ⟨rc2, ch2, hrest⟩ := ih chA (Nat.max md rc1)
      (fun f' hf' => hres f' (List.mem_cons_of_mem f hf'))
      (fun f' hf' => hcl f' (List.mem_cons_of_mem f hf'))
      (fun f' hf' => hbnd f' (List.mem_cons_of_mem f hf'))
    refine ⟨rc2, ch2, ?_⟩
    simp only [layer_roots, hv, hvis]
    exact hrest

theorem edges_no_oof (g : SasDigraph) (fuel : Nat)
    (hvno : ∀ (k : String) (vtx : SasDigraphVertex) (ch : ColumnHash) (d : Nat),
      getVtx g k = some vtx → (∀ p, KPath g k p → p.length ≤ fuel) →
      visit_vertex g fuel vtx ch d ≠ .outOfFuel) :
    ∀ (es : List String) (ch : ColumnHash) (depth md : Nat),
      (∀ e ∈ es, ∀ p, KPath g e p → p.length ≤ fuel) →
      visitEdges (visit_vertex g fuel) g es ch depth md ≠ .outOfFuel := by
  intro es
  induction es with
  | nil =>
    intro ch depth md _
    simp [visitEdges]
  | cons e rest ih =>
    intro ch depth md hbnd
    cases hg : getVtx g e with
    | none => simp [visitEdges, hg]
    | some w =>
      cases hvis : visit_vertex g fuel w ch (depth + 1) with
      | ok pr =>
        obtain ⟨rc1, chA⟩ := pr
        simp only [visitEdges, hg, hvis]
        exact ih chA depth (Nat.max md rc1)
          (fun e' he' => hbnd e' (List.mem_cons_of_mem e he'))
      | lookupFailure => simp [visitEdges, hg, hvis]
      | outOfFuel =>
        exact absurd hvis (hvno e w ch (depth + 1) hg
          (hbnd e (List.mem_cons_self e rest)))

theorem visit_no_oof (g : SasDigraph) :
    ∀ (fuel : Nat) (k : String) (vtx : SasDigraphVertex) (ch : ColumnHash) (d : Nat),
      getVtx g k = some vtx → (∀ p, KPath g k p → p.length ≤ fuel) →
      visit_vertex g fuel vtx ch d ≠ .outOfFuel := by
  intro fuel
  induction fuel with
  | zero =>
    intro k vtx ch d hk hb
    have := hb [k] (KPath.single k vtx hk)
    simp at this
  | succ n ih =>
    intro k vtx ch d hk hb
    cases hoe : vtx.outgoing_edges with
    | none => simp [visit_vertex, hoe]
    | some es =>
      simp only [visit_vertex, hoe]
      apply edges_no_oof g n ih es (chPush ch (d + 1) vtx.fmri) d (d + 1)
      intro e he p hp
      have := hb (k :: p) (KPath.cons k vtx es e p hk hoe he hp)
      simp only [List.length_cons] at this
      omega

theorem roots_no_oof (g : SasDigraph) (fuel : Nat) :
    ∀ (fs : List String) (ch : ColumnHash) (md : Nat),
      (∀ f ∈ fs, ∀ p, KPath g f p → p.length ≤ fuel) →
      layer_roots g fuel fs ch md ≠ .outOfFuel := by
  intro fs
  induction fs with
  | nil =>
    intro ch md _
    simp [layer_roots]
  | cons f rest ih =>
    intro ch md hbnd
    cases hg : getVtx g f with
    | none => simp [layer_roots, hg]
    | some vtx =>
      cases hvis : visit_vertex g fuel vtx ch 0 with
      | ok pr =>
        obtain ⟨rc1, chA⟩ := pr
        simp only [layer_roots, hg, hvis]
        exact ih chA (Nat.max md rc1)
          (fun f' hf' => hbnd f' (List.mem_cons_of_mem f hf'))
      | lookupFailure => simp [layer_roots, hg, hvis]
      | outOfFuel =>
        exact absurd hvis (visit_no_oof g fuel f vtx ch 0 hg
          (hbnd f (List.mem_cons_self f rest)))

/-- C1: for every graph whose vertices reachable from the declared
initiator list contain no cycle (and whose reachable edges all resolve,
per the graph invariant of the spec), the layering walk from every root
in root-list order terminates successfully once the fuel reaches the
number of vertex-map keys: max_depth is exactly the length in vertices
of the longest root-to-leaf path (0 when there are no roots, since every
root has the one-vertex path to itself), and the layer list of depth j
holds exactly the FMRIs of vertices at the end of a root path of j
vertices — that is, a vertex visited at incoming depth d (roots at
d = 0) is assigned to layer d + 1. -/
theorem C1_layering_correct (g : SasDigraph) (fuel : Nat)
    (hroots : ∀ f ∈ g.initiators, (getVtx g f).isSome)
    (hclosed : ∀ f ∈ g.initiators, Closure g f)
    (hacyc : ∀ u b, ReachableK g u → KPath g u (u :: b) → u ∉ b)
    (hfuel : (keys g).length ≤ fuel) :
    ∃ md ch, layering g fuel = .ok (md, ch) ∧
      (∀ f ∈ g.initiators, ∀ p, KPath g f p → p.length ≤ md) ∧
      (md = 0 ∨ ∃ f ∈ g.initiators, ∃ p, KPath g f p ∧ p.length = md) ∧
      (∀ j v, v ∈ chGet ch j ↔
        ∃ f ∈ g.initiators, ∃ p, KPath g f p ∧ p.length = j ∧
          lastFmri g p = some v) := by
  have hbnd : ∀ f ∈ g.initiators, ∀ p, KPath g f p → p.length ≤ fuel := by
    intro f hf p hp
    refine le_trans (KPath_length_le g f p hp ?_) hfuel
    intro u b hub hmem hup
    exact absurd hmem (hacyc u b ⟨f, hf, p, hp, hup⟩ hub)
  obtain ⟨rc, ch2, hok⟩ := roots_ok g fuel g.initiators [] 0 hroots hclosed hbnd
  obtain ⟨_, hB, hC, hD, _⟩ :=
    layer_roots_sound g fuel g.initiators [] 0 rc ch2 hok
  refine ⟨rc, ch2, hok, hB, hC, ?_⟩
  intro j v
  rw [hD j v]
  simp [chGet, chLookup]

/-- Closed witness for C1: the single-initiator leaf graph gW1 is
acyclic, its walk succeeds with fuel 1, max_depth is 1 (the longest path
i0 alone) and layer 1 holds exactly i0. -/
theorem C1_layering_correct_witness :
    ∃ md ch, layering gW1 1 = .ok (md, ch) ∧
      (∀ f ∈ gW1.initiators, ∀ p, KPath gW1 f p → p.length ≤ md) ∧
      (md = 0 ∨ ∃ f ∈ gW1.initiators, ∃ p, KPath gW1 f p ∧ p.length = md) ∧
      (∀ j v, v ∈ chGet ch j ↔
        ∃ f ∈ gW1.initiators, ∃ p, KPath gW1 f p ∧ p.length = j ∧
          lastFmri gW1 p = some v) := by
  have hk : getVtx gW1 "i0" = some (SasDigraphVertex.new "i0" "initiator" 7 none) :=
    rfl
  have hleaf : (SasDigraphVertex.new "i0" "initiator" 7 none).outgoing_edges = none :=
    rfl
  apply C1_layering_correct gW1 1 (by decide) ?_ ?_ (by decide)
  · intro f hf
    have hf' : f = "i0" := by simpa [gW1] using hf
    subst hf'
    intro p u vtx' es e hp hlast hu hes hee
    rw [KPath_of_leaf gW1 "i0" _ hk hleaf p hp] at hlast
    have hu' : u = "i0" := by simpa using hlast.symm
    subst hu'
    rw [hk] at hu
    have hvv : vtx' = SasDigraphVertex.new "i0" "initiator" 7 none :=
      (Option.some.inj hu).symm
    subst hvv
    rw [hleaf] at hes
    cases hes
  · intro u b hre hub
    obtain ⟨vtxU, hvU⟩ :=
      KPath_resolves gW1 u (u :: b) hub u (by simp)
    have hu0 : u = "i0" := by
      by_cases hq : "i0" = u
      · exact hq.symm
      · simp [getVtx, vlookup, gW1, hq] at hvU
    subst hu0
    have hb : b = [] := by
      simpa using KPath_of_leaf gW1 "i0" _ hk hleaf ("i0" :: b) hub
    subst hb
    simp

/-- C4: when a vertex reachable from a root carries an outgoing-edge
identifier that is not a key of the vertex mapping, the run fails with
the LookupFailure error: build_svg (whose file writes all come after
every emission phase has succeeded) returns the failure and never the
success value carrying the output primitives, so no output file is
produced.  The acyclicity and fuel hypotheses rule out the model's fuel
exhaustion, which stands for the divergence a cyclic input would cause
in the source. -/
theorem C4_dangling_edge_fails (g : SasDigraph) (fuel : Nat)
    (hacyc : ∀ u b, ReachableK g u → KPath g u (u :: b) → u ∉ b)
    (hfuel : (keys g).length ≤ fuel)
    (hdangling : ∃ f ∈ g.initiators, ∃ p u vtx es e,
      KPath g f p ∧ p.getLast? = some u ∧ getVtx g u = some vtx ∧
      vtx.outgoing_edges = some es ∧ e ∈ es ∧ getVtx g e = none) :
    build_svg g fuel = .error .failedLookup ∧
    ∀ out, build_svg g fuel ≠ .ok out := by
  have hbnd : ∀ f ∈ g.initiators, ∀ p, KPath g f p → p.length ≤ fuel := by
    intro f hf p hp
    refine le_trans (KPath_length_le g f p hp ?_) hfuel
    intro u b hub hmem hup
    exact absurd hmem (hacyc u b ⟨f, hf, p, hp, hup⟩ hub)
  have hnoof : layering g fuel ≠ .outOfFuel :=
    roots_no_oof g fuel g.initiators [] 0 hbnd
  have hnotok : ∀ rc ch2, layering g fuel ≠ .ok (rc, ch2) := by
    intro rc ch2 hok
    obtain ⟨_, _, _, _, hcl⟩ :=
      layer_roots_sound g fuel g.initiators [] 0 rc ch2 hok
    obtain ⟨f, hf, p, u, vtx, es, e, hp, hlast, hu, hes, hee, hnone⟩ := hdangling
    have hsome := (hcl f hf).1 p u vtx es e hp hlast hu hes hee
    rw [hnone] at hsome
    simp at hsome
  have hlf : layering g fuel = .lookupFailure := by
    cases hres : layering g fuel with
    | ok pr =>
      obtain ⟨rc, ch2⟩ := pr
      exact absurd hres (hnotok rc ch2)
    | lookupFailure => rfl
    | outOfFuel => exact absurd hres hnoof
  constructor
  · simp only [build_svg, hlf]
  · intro out hok
    simp only [build_svg, hlf] at hok
    cases hok

/-- Closed witness for C4: the graph gW4, whose initiator points at the
absent vertex x, makes build_svg fail with the LookupFailure error and
yield no output. -/
theorem C4_dangling_edge_fails_witness :
    build_svg gW4 1 = .error .failedLookup ∧
    ∀ out, build_svg gW4 1 ≠ .ok out := by
  have hk : getVtx gW4 "i" = some (SasDigraphVertex.new "i" "initiator" 0 (some ["x"])) :=
    rfl
  apply C4_dangling_edge_fails gW4 1 ?_ (by decide) ?_
  · intro u b hre hub
    obtain ⟨vtxU, hvU⟩ := KPath_resolves gW4 u (u :: b) hub u (by simp)
    have hu0 : u = "i" := by
      by_cases hq : "i" = u
      · exact hq.symm
      · simp [getVtx, vlookup, gW4, hq] at hvU
    subst hu0
    rcases KPath_cases gW4 "i" (SasDigraphVertex.new "i" "initiator" 0 (some ["x"]))
        ("i" :: b) hk hub with heq | ⟨es, e, t, hes, hme, ht, heq⟩
    · have hb : b = [] := by simpa using heq
      subst hb
      simp
    · have hes' : es = ["x"] := (Option.some.inj hes).symm
      subst hes'
      have he' : e = "x" := by simpa using hme
      subst he'
      obtain ⟨t', rfl⟩ := KPath_head gW4 "x" t ht
      obtain ⟨w, hw⟩ := KPath_resolves gW4 "x" _ ht "x" (by simp)
      simp [getVtx, vlookup, gW4] at hw
  · refine ⟨"i", by simp [gW4], ["i"], "i",
      SasDigraphVertex.new "i" "initiator" 0 (some ["x"]), ["x"], "x",
      KPath.single "i" _ hk, rfl, hk, rfl, by simp, rfl⟩

theorem mem_of_getLast?_eq (l : List String) (u : String)
    (h : l.getLast? = some u) : u ∈ l := by
  obtain ⟨hne, heq⟩ := List.mem_getLast?_eq_getLast (Option.mem_def.mpr h)
  rw [heq]
  exact List.getLast_mem hne

theorem nodeLoopInner_fmris (mh L d : Nat) :
    ∀ (rest : List String) (i0 : Nat) (acc : List NodePrim)
      (vs : List (String × SasDigraphVertex)) (out : List NodePrim)
      (vs2 : List (String × SasDigraphVertex)),
      nodeLoopInner mh L d rest i0 acc vs = .ok (out, vs2) →
      ∀ pr ∈ out, pr ∈ acc ∨ NodePrim.fmri pr ∈ rest := by
  intro rest
  induction rest with
  | nil =>
    intro i0 acc vs out vs2 h pr hpr
    cases h
    exact Or.inl hpr
  | cons f r ih =>
    intro i0 acc vs out vs2 h pr hpr
    cases hg : vlookup vs f with
    | none => simp only [nodeLoopInner, hg] at h; cases h
    | some vtxI =>
      simp only [nodeLoopInner, hg] at h
      cases hu : imguriFor vtxI.name with
      | none => simp only [hu] at h; cases h
      | some uri =>
        simp only [hu] at h
        rcases ih _ _ _ _ _ h pr hpr with hacc | hrest
        · rcases List.mem_append.mp hacc with hacc' | hprim
          · exact Or.inl hacc'
          · right
            rw [List.mem_singleton] at hprim
            subst hprim
            simp
        · exact Or.inr (List.mem_cons_of_mem f hrest)

theorem nodeLoopOuter_fmris (mh : Nat) (ch : ColumnHash) :
    ∀ (ds : List Nat) (acc : List NodePrim)
      (vs : List (String × SasDigraphVertex)) (out : List NodePrim)
      (vs2 : List (String × SasDigraphVertex)),
      nodeLoopOuter mh ch ds acc vs = .ok (out, vs2) →
      ∀ pr ∈ out, pr ∈ acc ∨
        ∃ d ∈ ds, ∃ L, chLookup ch d = some L ∧ NodePrim.fmri pr ∈ L := by
  intro ds
  induction ds with
  | nil =>
    intro acc vs out vs2 h pr hpr
    cases h
    exact Or.inl hpr
  | cons dd ds' ih =>
    intro acc vs out vs2 h pr hpr
    cases hcl : chLookup ch dd with
    | none => simp only [nodeLoopOuter, hcl] at h; cases h
    | some layer =>
      simp only [nodeLoopOuter, hcl] at h
      cases hin : nodeLoopInner mh layer.length dd layer 0 acc vs with
      | error e => simp only [hin] at h; cases h
      | ok pr2 =>
        obtain ⟨acc2, vsA⟩ := pr2
        simp only [hin] at h
        rcases ih _ _ _ _ h pr hpr with hacc2 | ⟨d, hd, L, hL, hmem⟩
        · rcases nodeLoopInner_fmris mh layer.length dd _ _ _ _ _ _ hin pr hacc2
            with hacc | hlayer
          · exact Or.inl hacc
          · exact Or.inr ⟨dd, List.mem_cons_self dd ds', layer, hcl, hlayer⟩
        · exact Or.inr ⟨d, List.mem_cons_of_mem dd hd, L, hL, hmem⟩

theorem nodeLoopInner_untouched (mh L d : Nat) :
    ∀ (rest : List String) (i0 : Nat) (acc : List NodePrim)
      (vs : List (String × SasDigraphVertex)) (out : List NodePrim)
      (vs2 : List (String × SasDigraphVertex)),
      nodeLoopInner mh L d rest i0 acc vs = .ok (out, vs2) →
      ∀ k, k ∉ rest → vlookup vs2 k = vlookup vs k := by
  intro rest
  induction rest with
  | nil =>
    intro i0 acc vs out vs2 h k _
    cases h
    rfl
  | cons f r ih =>
    intro i0 acc vs out vs2 h k hk
    cases hg : vlookup vs f with
    | none => simp only [nodeLoopInner, hg] at h; cases h
    | some vtxI =>
      simp only [nodeLoopInner, hg] at h
      cases hu : imguriFor vtxI.name with
      | none => simp only [hu] at h; cases h
      | some uri =>
        simp only [hu] at h
        have hkr : k ∉ r := fun hh => hk (List.mem_cons_of_mem f hh)
        have hkf : k ≠ f := fun hh => hk (hh ▸ List.mem_cons_self f r)
        rw [ih _ _ _ _ _ h k hkr, vlookup_setVtx, if_neg hkf]

theorem nodeLoopOuter_untouched (mh : Nat) (ch : ColumnHash) :
    ∀ (ds : List Nat) (acc : List NodePrim)
      (vs : List (String × SasDigraphVertex)) (out : List NodePrim)
      (vs2 : List (String × SasDigraphVertex)),
      nodeLoopOuter mh ch ds acc vs = .ok (out, vs2) →
      ∀ k, (∀ d ∈ ds, ∀ L, chLookup ch d = some L → k ∉ L) →
        vlookup vs2 k = vlookup vs k := by
  intro ds
  induction ds with
  | nil =>
    intro acc vs out vs2 h k _
    cases h
    rfl
  | cons dd ds' ih =>
    intro acc vs out vs2 h k hk
    cases hcl : chLookup ch dd with
    | none => simp only [nodeLoopOuter, hcl] at h; cases h
    | some layer =>
      simp only [nodeLoopOuter, hcl] at h
      cases hin : nodeLoopInner mh layer.length dd layer 0 acc vs with
      | error e => simp only [hin] at h; cases h
      | ok pr2 =>
        obtain ⟨acc2, vsA⟩ := pr2
        simp only [hin] at h
        rw [ih _ _ _ _ h k
          (fun d hd L hL => hk d (List.mem_cons_of_mem dd hd) L hL)]
        exact nodeLoopInner_untouched mh layer.length dd _ _ _ _ _ _ hin k
          (hk dd (List.mem_cons_self dd ds') layer hcl)

theorem connLoopLayer_decomp (vs : List (String × SasDigraphVertex)) :
    ∀ (L : List String) (lines : List LinePrim),
      connLoopLayer vs L = .ok lines →
      ∃ lss, List.Forall₂ (fun occ ls => connectorsFor vs occ = Except.ok ls) L lss ∧
        lines = lss.flatten := by
  intro L
  induction L with
  | nil =>
    intro lines h
    cases h
    exact ⟨[], List.Forall₂.nil, rfl⟩
  | cons f rest ih =>
    intro lines h
    cases hc : connectorsFor vs f with
    | error e => simp only [connLoopLayer, hc] at h; cases h
    | ok ls =>
      simp only [connLoopLayer, hc] at h
      cases hr : connLoopLayer vs rest with
      | error e => simp only [hr] at h; cases h
      | ok ls2 =>
        simp only [hr] at h
        cases h
        obtain ⟨lss, hfa, rfl⟩ := ih ls2 hr
        exact ⟨ls :: lss, List.Forall₂.cons hc hfa, by simp⟩

theorem connLoopOuter_decomp (vs : List (String × SasDigraphVertex))
    (ch : ColumnHash) :
    ∀ (ds : List Nat) (lines : List LinePrim),
      connLoopOuter vs ch ds = .ok lines →
      ∃ occs lss,
        List.Forall₂ (fun occ ls => connectorsFor vs occ = Except.ok ls) occs lss ∧
        lines = lss.flatten ∧
        ∀ occ ∈ occs, ∃ d ∈ ds, ∃ L, chLookup ch d = some L ∧ occ ∈ L := by
  intro ds
  induction ds with
  | nil =>
    intro lines h
    cases h
    exact ⟨[], [], List.Forall₂.nil, rfl, by simp⟩
  | cons dd ds' ih =>
    intro lines h
    cases hcl : chLookup ch dd with
    | none => simp only [connLoopOuter, hcl] at h; cases h
    | some layer =>
      simp only [connLoopOuter, hcl] at h
      cases hlay : connLoopLayer vs layer with
      | error e => simp only [hlay] at h; cases h
      | ok ls1 =>
        simp only [hlay] at h
        cases hrest : connLoopOuter vs ch ds' with
        | error e => simp only [hrest] at h; cases h
        | ok ls2 =>
          simp only [hrest] at h
          cases h
          obtain ⟨lss1, hfa1, rfl⟩ := connLoopLayer_decomp vs layer ls1 hlay
          obtain ⟨occs2, lss2, hfa2, rfl, hocc2⟩ := ih ls2 hrest
          refine ⟨layer ++ occs2, lss1 ++ lss2, List.rel_append hfa1 hfa2,
            by simp, ?_⟩
          intro occ hocc
          rcases List.mem_append.mp hocc with hl | ho
          · exact ⟨dd, List.mem_cons_self dd ds', layer, hcl, hl⟩
          · obtain ⟨d, hd, L, hL, hm⟩ := hocc2 occ ho
            exact ⟨d, List.mem_cons_of_mem dd hd, L, hL, hm⟩

/-- C10: a vertex present in the vertex mapping but not reachable from
any initiator is assigned to no layer list, yields no node primitive
carrying its key, and contributes no connector primitives: the emitted
line list decomposes exactly into the per-occurrence contributions of
the layer-list occurrences, every one of which is a vertex other than
v.  Its entry in the vertex map after emission is untouched, keeping the
all-zero geometry SasDigraphVertex::new gave it.  No error is raised:
build_svg succeeds and the vertex is silently absent from the output.
The hypothesis hwf (every mapped vertex's fmri field equals its map key)
holds for every graph the run constructs, which keys the map by fmri. -/
theorem C10_unreachable_vertex_omitted (g : SasDigraph) (fuel : Nat)
    (out : SvgOutput)
    (hwf : ∀ k vtx, getVtx g k = some vtx → vtx.fmri = k)
    (h : build_svg g fuel = .ok out)
    (v : String) (vtx : SasDigraphVertex) (hv : getVtx g v = some vtx)
    (hunreach : ¬ ReachableK g v) :
    (∀ d, v ∉ chGet out.column_hash d) ∧
    (∀ pr ∈ out.nodes, NodePrim.fmri pr ≠ v) ∧
    (∃ occs lss,
      List.Forall₂ (fun occ ls => connectorsFor out.vertices occ = Except.ok ls)
        occs lss ∧
      out.lines = lss.flatten ∧ v ∉ occs) ∧
    vlookup out.vertices v = some vtx := by
  cases hlay : layering g fuel with
  | lookupFailure => simp only [build_svg, hlay] at h; cases h
  | outOfFuel => simp only [build_svg, hlay] at h; cases h
  | ok pr =>
    obtain ⟨md, ch⟩ := pr
    simp only [build_svg, hlay] at h
    cases hemit : emitNodes (max_height_calc ch md) ch md g.vertices with
    | error e => simp only [hemit] at h; cases h
    | ok pr2 =>
      obtain ⟨nodes, vsOut⟩ := pr2
      simp only [hemit] at h
      cases hconn : connAll vsOut ch md with
      | error e => simp only [hconn] at h; cases h
      | ok lines =>
        simp only [hconn] at h
        cases h
        obtain ⟨_, _, _, hD, _⟩ :=
          layer_roots_sound g fuel g.initiators [] 0 md ch hlay
        have hnotin : ∀ d, v ∉ chGet ch d := by
          intro d hd
          rw [hD d v] at hd
          rcases hd with hfalse | ⟨f, hf, p, hp, hlen, hlf⟩
          · simp [chGet, chLookup] at hfalse
          · unfold lastFmri at hlf
            cases hlast : p.getLast? with
            | none => rw [hlast] at hlf; simp at hlf
            | some u =>
              rw [hlast] at hlf
              simp only [Option.some_bind] at hlf
              cases hgu : getVtx g u with
              | none => rw [hgu] at hlf; simp at hlf
              | some w =>
                rw [hgu] at hlf
                simp only [Option.map_some'] at hlf
                have huv : u = v := by
                  have hwu := hwf u w hgu
                  rw [← Option.some.inj hlf, hwu]
                have hup : v ∈ p := huv ▸ mem_of_getLast?_eq p u hlast
                exact hunreach ⟨f, hf, p, hp, hup⟩
        refine ⟨?_, ?_, ?_, ?_⟩
        · exact fun d => hnotin d
        · intro pr hpr hfv
          unfold emitNodes at hemit
          rcases nodeLoopOuter_fmris (max_height_calc ch md) ch (oneTo md)
              [] g.vertices nodes vsOut hemit pr hpr with hacc | ⟨d, hd, L, hL, hmem⟩
          · simp at hacc
          · apply hnotin d
            rw [hfv] at hmem
            simp [chGet, hL]
            exact hmem
        · unfold connAll at hconn
          obtain ⟨occs, lss, hfa, hfl, hocc⟩ :=
            connLoopOuter_decomp vsOut ch (oneTo md) lines hconn
          refine ⟨occs, lss, hfa, hfl, ?_⟩
          intro hvocc
          obtain ⟨d, hd, L, hL, hmem⟩ := hocc v hvocc
          apply hnotin d
          simp [chGet, hL]
          exact hmem
        · unfold emitNodes at hemit
          rw [nodeLoopOuter_untouched (max_height_calc ch md) ch (oneTo md)
            [] g.vertices nodes vsOut hemit v ?_]
          · exact hv
          · intro d hd L hL hmem
            apply hnotin d
            simp [chGet, hL]
            exact hmem

/-- Closed witness for C10: in gW10 the unreachable vertex z lands on no
layer, yields no node primitive, contributes none of the three connector
lines the reachable chain i, t emits, and keeps its untouched all-zero
geometry, while build_svg still succeeds. -/
theorem C10_unreachable_vertex_omitted_witness :
    (∀ d, "z" ∉ chGet outW10.column_hash d) ∧
    (∀ pr ∈ outW10.nodes, NodePrim.fmri pr ≠ "z") ∧
    (∃ occs lss,
      List.Forall₂ (fun occ ls => connectorsFor outW10.vertices occ = Except.ok ls)
        occs lss ∧
      outW10.lines = lss.flatten ∧ "z" ∉ occs) ∧
    vlookup outW10.vertices "z" = some (SasDigraphVertex.new "z" "target" 3 none) := by
  apply C10_unreachable_vertex_omitted gW10 3 outW10 ?_ rfl "z"
    (SasDigraphVertex.new "z" "target" 3 none) rfl ?_
  · intro k vtx h
    by_cases h1 : "i" = k
    · subst h1
      have hvt := Option.some.inj h
      rw [← hvt]
      rfl
    · by_cases h2 : "t" = k
      · subst h2
        have hvt := Option.some.inj h
        rw [← hvt]
        rfl
      · by_cases h3 : "z" = k
        · subst h3
          have hvt := Option.some.inj h
          rw [← hvt]
          rfl
        · simp [getVtx, vlookup, gW10, h1, h2, h3] at h
  · rintro ⟨f, hf, p, hp, hz⟩
    have hf' : f = "i" := by simpa [gW10] using hf
    subst hf'
    have hki : getVtx gW10 "i" =
        some (SasDigraphVertex.new "i" "initiator" 0 (some ["t"])) := rfl
    rcases KPath_cases gW10 "i" _ p hki hp with rfl | ⟨es, e, t, hes, hme, ht, rfl⟩
    · simp at hz
    · have hes' : es = ["t"] := (Option.some.inj hes).symm
      subst hes'
      have he' : e = "t" := by simpa using hme
      subst he'
      rw [KPath_of_leaf gW10 "t" (SasDigraphVertex.new "t" "target" 1 none)
        rfl rfl t ht] at hz
      simp at hz

end SasTopo
